import Mathlib

/-!
Verification of the AT command transaction engine of `async_gsm_modem`
(`src/async_gsm_modem/base/modem.py`).

The development has two parts.

Part 1 is a shallow embedding of the sequential data path: byte lines,
`read_response` (the line framer, lines 78-88 of `base/modem.py`),
`read` (the response loop, lines 65-76), `send_command` (the command
executor, lines 53-63), and `close` (lines 90-93).  Bytes are `List Nat`
(one `Nat` per byte).  The serial transport is modelled by the interface
the spec gives it (section 6): each `readuntil`-with-timeout call either
returns a chunk of bytes ending in the first occurrence of the separator,
fails with an incomplete read (stream closed), fails with a timeout, or is
interrupted by task cancellation.  Python exception flow (`try` /
`except Exception` / `finally` with a `return` inside the `finally`,
which discards any in-flight exception) is made explicit.

`Command` and `Response` are classes of this repository that are not under
`src/`; following the spec (section 3) a `Response` is modelled as an
immutable byte sequence (the spec's "Response Line") and a `Command` as an
opaque byte payload, so both are plain `List Nat` here and `bytes(response)`
is the identity.

Part 2 (further down) is a small-step transition system for the
concurrency claims about the transaction lock and the background reader
loop, modelling the asyncio cooperative scheduler with its FIFO
ready-callback queue.
-/

deriving instance DecidableEq for Except

/-- A byte, `0 ≤ b < 256` values are the ones used; the development never
depends on an upper bound. -/
abbrev Byte := Nat

/-- A byte string (Python `bytes`). -/
abbrev ByteStr := List Byte

namespace ATModem

/-- `RESP_SEPERATOR = b'\r\n'` (line 12 of `base/modem.py`). -/
def RESP_SEPERATOR : ByteStr := [13, 10]

/-- `RESP_TERMINATOR = b'OK'` (line 13 of `base/modem.py`). -/
def RESP_TERMINATOR : ByteStr := [79, 75]

/-- `CMD_TERMINATOR = b'\r'` (line 14 of `base/modem.py`). -/
def CMD_TERMINATOR : ByteStr := [13]

/-- Python `bytes.rstrip(sep)`: removes all trailing bytes that belong to
the byte set of `sep` (character-set semantics, not suffix-occurrence
semantics).  Used by `read_response` at line 82:
`response.rstrip(seperator)`. -/
def pyRstrip (bs sep : ByteStr) : ByteStr :=
  (bs.reverse.dropWhile (fun b => sep.contains b)).reverse

/-- Python `bytes.startswith(p)`: `startswith bs p = true` iff `p` is an
initial segment of `bs`.  Used by `read` at line 71:
`bytes(response).startswith(urc)`. -/
def startswith : ByteStr → ByteStr → Bool
  | _, [] => true
  | [], _ :: _ => false
  | b :: bs, p :: ps => b = p && startswith bs ps

/-- Outcome of one `asyncio.wait_for(self.reader.readuntil(seperator), timeout)`
call (line 81), following the transport interface of spec section 6
plus delivery of task cancellation at the await point:
`data bs` — the stream returned the bytes `bs`, which run up to and include
the first occurrence of the separator;
`incomplete` — the stream closed before the separator was seen
(`IncompleteReadError`);
`timeout` — no separator arrived within the timeout (`asyncio.TimeoutError`);
`cancelled` — the surrounding task was cancelled while blocked on this read
(`asyncio.CancelledError` raised at the await). -/
inductive RawRead where
  | data (bs : ByteStr)
  | incomplete
  | timeout
  | cancelled
deriving DecidableEq, Repr

/-- The Python exceptions this engine can propagate.  `isException` below
records which of them are `Exception` subclasses (caught by
`except Exception`); `cancelled` is `asyncio.CancelledError`, a
`BaseException` on Python ≥ 3.8. -/
inductive PyExn where
  | typeError
  | nameError
  | runtimeError
  | cancelled
  | other
deriving DecidableEq, Repr

/-- Whether `except Exception` catches the exception: everything except
`asyncio.CancelledError` (a `BaseException` since Python 3.8). -/
def isException : PyExn → Bool
  | .cancelled => false
  | _ => true

/-- `ATModem.read_response` (lines 78-88): frames one line.  On data it
strips the separator with Python `rstrip` and returns the `Response`; on
`IncompleteReadError` or `asyncio.TimeoutError` it logs and falls off the
end of the function, returning `None`; a `CancelledError` raised at the
await matches neither `except` clause and propagates. -/
def read_response (seperator : ByteStr) (r : RawRead) : Except PyExn (Option ByteStr) :=
  match r with
  | .data bs => .ok (some (pyRstrip bs seperator))
  | .incomplete => .ok none
  | .timeout => .ok none
  | .cancelled => .error .cancelled

/-- `any([bytes(response).startswith(urc) for urc in self.urc])` (line 71). -/
def matchesUrc (urc : List ByteStr) (line : ByteStr) : Bool :=
  urc.any (fun u => startswith line u)

/-- Result of running the `while True` loop of `ATModem.read`
(lines 69-76) against a finite script of stream outcomes:
`ok responses urcBuf` — the loop returned `responses`, with `urcBuf` the
final contents of `self.urc_buffer`;
`exn e urcBuf` — an exception `e` escaped the loop (the local `responses`
list is discarded, the `self.urc_buffer` mutations persist);
`pending responses urcBuf` — the script was exhausted with the loop still
blocked on its next line read. -/
inductive ReadResult where
  | ok (responses : List ByteStr) (urcBuf : List ByteStr)
  | exn (e : PyExn) (urcBuf : List ByteStr)
  | pending (responses : List ByteStr) (urcBuf : List ByteStr)
deriving DecidableEq, Repr

/-- `ATModem.read` (lines 65-76), one constructor case per loop iteration.
Each iteration calls `read_response`.  If it returns a line, the line is
routed: a URC-prefix match is appended to `self.urc_buffer`, otherwise it
is appended to the local `responses` list — note the terminator line
itself is routed like any other line *before* the loop-exit test at
line 75, so a non-matching terminator line lands in `responses`.  If
`read_response` returned `None`, the loop-body expressions evaluate
`bytes(None)`: with a non-empty URC registry this happens inside the
comprehension at line 71, with an empty registry (`any([])` is `False`
without touching `response`) it happens in the exit test
`bytes(response) == terminator` at line 75 — in both cases a `TypeError`
is raised before the `response is None` test can ever return, so the
sentinel always escapes as a `TypeError`.  An exception from
`read_response` itself (cancellation) propagates unchanged. -/
def read (urc : List ByteStr) (seperator terminator : ByteStr) :
    List RawRead → List ByteStr → List ByteStr → ReadResult
  | [], responses, urcBuf => .pending responses urcBuf
  | raw :: rest, responses, urcBuf =>
    match read_response seperator raw with
    | .error e => .exn e urcBuf
    | .ok none => .exn .typeError urcBuf
    | .ok (some line) =>
      if matchesUrc urc line then
        if line = terminator then .ok responses (urcBuf ++ [line])
        else read urc seperator terminator rest responses (urcBuf ++ [line])
      else
        if line = terminator then .ok (responses ++ [line]) urcBuf
        else read urc seperator terminator rest (responses ++ [line]) urcBuf

/-- The sequence of lines the `read` loop processes from a script: every
framed line up to and including the first line equal to the terminator. -/
def processedLines (seperator terminator : ByteStr) : List RawRead → List ByteStr
  | [] => []
  | raw :: rest =>
    match read_response seperator raw with
    | .error _ => []
    | .ok none => []
    | .ok (some line) =>
      if line = terminator then [line]
      else line :: processedLines seperator terminator rest

/-- Outcome of one engine step (`lock()` or `write()`) as a transaction
input: it either completed or raised. -/
inductive StepOutcome where
  | ok
  | raises (e : PyExn)
deriving DecidableEq, Repr

/-- What the caller of `send_command` observes. -/
inductive CallOutcome where
  | returns (responses : List ByteStr)
  | raises (e : PyExn)
  | blocked
deriving DecidableEq, Repr

/-- Events of one transaction, in execution order. -/
inductive Ev where
  | acquire
  | write
  | readPhase
  | release
deriving DecidableEq, Repr

/-- Record of one `send_command` run: the caller-visible outcome, the
final URC buffer contents, how many times the transaction successfully
acquired and released the transaction lock, whether it is still holding
the lock, and the event trace. -/
structure SendResult where
  outcome : CallOutcome
  urcBuf : List ByteStr
  acquired : Nat
  released : Nat
  lockHeld : Bool
  trace : List Ev
deriving DecidableEq, Repr

/-- `ATModem.send_command` (lines 53-63) with Python `try` / `except
Exception` / `finally` semantics made explicit.  Inputs: the outcome of
`await self.lock()` (line 55), the outcome of `await self.write(command)`
(line 56), and the stream script consumed by `await self.read()`
(line 57).

Control flow of the source:
if `lock()` raises, the lock was not acquired; `except Exception` may
bind `responses = []`, but the `finally` then calls `self.unlock()`,
whose `self._lock.release()` raises `RuntimeError` on an unheld lock, and
that `RuntimeError` propagates to the caller.
If `lock()` succeeded and `write` or `read` raises an `Exception`, the
handler sets `responses = []` and the `finally` releases the lock and
returns `[]`.
If `write` or `read` raises a `BaseException` (cancellation), the
handler does not match; the `finally` still releases the lock, and its
`return responses` first discards the in-flight `CancelledError` and then
evaluates the local `responses`, which was never bound — so the caller
sees a `NameError`.
If the script leaves `read` blocked, the transaction is still inside
step 3 holding the lock. -/
def send_command (urc : List ByteStr) (lockStep writeStep : StepOutcome)
    (script : List RawRead) : SendResult :=
  match lockStep with
  | .raises _ =>
    { outcome := .raises .runtimeError, urcBuf := [],
      acquired := 0, released := 0, lockHeld := false, trace := [] }
  | .ok =>
    match writeStep with
    | .raises e =>
      if isException e then
        { outcome := .returns [], urcBuf := [],
          acquired := 1, released := 1, lockHeld := false,
          trace := [.acquire, .release] }
      else
        { outcome := .raises .nameError, urcBuf := [],
          acquired := 1, released := 1, lockHeld := false,
          trace := [.acquire, .release] }
    | .ok =>
      match read urc RESP_SEPERATOR RESP_TERMINATOR script [] [] with
      | .ok responses urcBuf =>
        { outcome := .returns responses, urcBuf := urcBuf,
          acquired := 1, released := 1, lockHeld := false,
          trace := [.acquire, .write, .readPhase, .release] }
      | .exn e urcBuf =>
        if isException e then
          { outcome := .returns [], urcBuf := urcBuf,
            acquired := 1, released := 1, lockHeld := false,
            trace := [.acquire, .write, .readPhase, .release] }
        else
          { outcome := .raises .nameError, urcBuf := urcBuf,
            acquired := 1, released := 1, lockHeld := false,
            trace := [.acquire, .write, .readPhase, .release] }
      | .pending _ urcBuf =>
        { outcome := .blocked, urcBuf := urcBuf,
          acquired := 1, released := 0, lockHeld := true,
          trace := [.acquire, .write, .readPhase] }

end ATModem

namespace ATModem

/-! ### State of close / teardown (lines 90-93 and 119-125) -/

/-- Teardown-relevant engine state: the `self._close` flag, whether the
stream writer has been closed, and whether the background reader loop
task has had `cancel()` called on it and has been awaited. -/
structure CloseState where
  closeFlag : Bool
  streamClosed : Bool
  loopCancelRequested : Bool
  loopAwaited : Bool
deriving DecidableEq, Repr

/-- `ATModem.close` (lines 90-93): sets `self._close = True`, closes the
writer and awaits `wait_closed()`.  It does not touch the read-loop
task. -/
def close (s : CloseState) : CloseState :=
  { s with closeFlag := true, streamClosed := true }

/-- `ATModem.stop_read_loop` (lines 119-125), shown for contrast: this is
the routine that cancels the background reader task and awaits it, and
`close` never calls it. -/
def stop_read_loop (s : CloseState) : CloseState :=
  { s with loopCancelRequested := true, loopAwaited := true }

/-! ### The two loops' per-iteration exception policy (lines 95-114) -/

/-- What one loop iteration does with control flow. -/
inductive LoopSignal where
  | cont
  | terminate
  | propagate (e : PyExn)
deriving DecidableEq, Repr

/-- One iteration of `ATModem.urc_handler_loop` (lines 95-103), as a
function of the exception (if any) raised while popping and handling one
buffered line: `except asyncio.CancelledError: raise` re-raises
cancellation, the bare `except: pass` swallows everything else, and a
clean iteration just continues. -/
def urc_handler_loop_iter : Option PyExn → LoopSignal
  | some .cancelled => .propagate .cancelled
  | some _ => .cont
  | none => .cont

/-- One iteration of the `while True` body of `ATModem.read_loop`
(lines 108-114), as a function of the stream outcome of its
`read_response` call: `except asyncio.CancelledError: return` turns
cancellation into clean termination of the loop; every stream outcome
(a line, an absorbed incomplete read, an absorbed timeout) continues. -/
def read_loop_iter : RawRead → LoopSignal
  | .cancelled => .terminate
  | _ => .cont

/-! ### Helper characterisation of the read loop -/

/-- Normal termination of `read` splits the processed lines by the URC
test: the returned responses are the initial responses followed by the
non-matching processed lines, and the URC buffer receives exactly the
matching processed lines, in order. -/
theorem read_ok_spec (urc : List ByteStr) (sep term : ByteStr) :
    ∀ (script : List RawRead) (r0 b0 resp buf : List ByteStr),
      read urc sep term script r0 b0 = .ok resp buf →
      resp = r0 ++ (processedLines sep term script).filter
          (fun l => !(matchesUrc urc l)) ∧
      buf = b0 ++ (processedLines sep term script).filter
          (fun l => matchesUrc urc l)
  | [], r0, b0, resp, buf => by
    intro h
    simp [read] at h
  | raw :: rest, r0, b0, resp, buf => by
    intro h
    rw [read] at h
    cases hr : read_response sep raw with
    | error e =>
      rw [hr] at h
      simp at h
    | ok o =>
      rw [hr] at h
      cases o with
      | none => simp at h
      | some line =>
        simp only [processedLines, hr]
        by_cases ht : line = term
        · subst ht
          simp only [eq_self_iff_true, if_true] at h ⊢
          by_cases hm : matchesUrc urc line
          · simp only [if_pos hm] at h
            rw [ReadResult.ok.injEq] at h
            simp [h.1, h.2, hm]
          · simp only [if_neg hm] at h
            rw [ReadResult.ok.injEq] at h
            simp [h.1, h.2, hm]
        · simp only [if_neg ht] at h ⊢
          by_cases hm : matchesUrc urc line
          · simp only [if_pos hm] at h
            obtain ⟨h1, h2⟩ := read_ok_spec urc sep term rest r0 (b0 ++ [line]) resp buf h
            simp [h1, h2, hm]
          · simp only [if_neg hm] at h
            obtain ⟨h1, h2⟩ := read_ok_spec urc sep term rest (r0 ++ [line]) b0 resp buf h
            simp [h1, h2, hm]

end ATModem

namespace ATModem

/-! ### Concrete byte strings used in scenarios and witnesses -/

/-- `b'+CMTI'` — the registered URC prefix of the spec's scenario. -/
def cmtiUrc : ByteStr := [43, 67, 77, 84, 73]

/-- `b'+CMTI: ...'` — the URC line of the spec's scenario. -/
def cmtiLine : ByteStr := [43, 67, 77, 84, 73, 58, 32, 46, 46, 46]

/-- `b'+CREG: 1'` — the solicited line of the spec's scenario. -/
def cregLine : ByteStr := [43, 67, 82, 69, 71, 58, 32, 49]

/-- The stream script of the spec's scenario: the three lines
`+CMTI: ...`, `+CREG: 1`, `OK`, each delivered with its `\r\n`. -/
def scenarioScript : List RawRead :=
  [.data (cmtiLine ++ RESP_SEPERATOR),
   .data (cregLine ++ RESP_SEPERATOR),
   .data (RESP_TERMINATOR ++ RESP_SEPERATOR)]

/-! ### Claim theorems -/

/-- C2: for every command transaction, the lock acquire and release are
balanced (and on the scoped path — lock acquisition succeeded — they are
exactly one each, the lock is not held after the transaction exits, and
the trace is one `acquire`, then the write/read steps, then a final
single `release`, so the lock is held for the whole span between the
write and the return of results, on every exit path including ones that
raise during the write or read steps). -/
theorem lock_discipline (urc : List ByteStr) (lockStep writeStep : StepOutcome)
    (script : List RawRead) (r : SendResult)
    (hr : r = send_command urc lockStep writeStep script)
    (hnb : r.outcome ≠ .blocked) :
    r.acquired = r.released ∧ r.lockHeld = false ∧
    (lockStep = .ok → r.acquired = 1 ∧ r.released = 1 ∧
      ∃ mid, r.trace = Ev.acquire :: (mid ++ [Ev.release]) ∧
        Ev.acquire ∉ mid ∧ Ev.release ∉ mid) := by
  subst hr
  cases lockStep with
  | raises e => simp [send_command]
  | ok =>
    cases writeStep with
    | raises e =>
      cases he : isException e <;>
        simp only [send_command, he, Bool.false_eq_true, if_true, if_false] <;>
          exact ⟨by trivial, by trivial, fun _ => ⟨by trivial, by trivial, [], by decide, by decide, by decide⟩⟩
    | ok =>
      cases hread : read urc RESP_SEPERATOR RESP_TERMINATOR script [] [] with
      | ok responses urcBuf =>
        simp only [send_command, hread]
        exact ⟨by trivial, by trivial, fun _ =>
          ⟨by trivial, by trivial, [Ev.write, Ev.readPhase], by decide, by decide, by decide⟩⟩
      | exn e urcBuf =>
        cases he : isException e <;>
          simp only [send_command, hread, he, Bool.false_eq_true, if_true, if_false] <;>
            exact ⟨by trivial, by trivial, fun _ =>
              ⟨by trivial, by trivial, [Ev.write, Ev.readPhase], by decide, by decide, by decide⟩⟩
      | pending responses urcBuf =>
        simp only [send_command, hread] at hnb
        simp at hnb

/-- Witness for C2 at a concrete transaction (a plain `AT` → `OK`
exchange). -/
theorem lock_discipline_witness :
    (send_command [] .ok .ok [.data (RESP_TERMINATOR ++ RESP_SEPERATOR)]).acquired =
      (send_command [] .ok .ok [.data (RESP_TERMINATOR ++ RESP_SEPERATOR)]).released ∧
    (send_command [] .ok .ok [.data (RESP_TERMINATOR ++ RESP_SEPERATOR)]).lockHeld = false ∧
    (StepOutcome.ok = StepOutcome.ok →
      (send_command [] .ok .ok [.data (RESP_TERMINATOR ++ RESP_SEPERATOR)]).acquired = 1 ∧
      (send_command [] .ok .ok [.data (RESP_TERMINATOR ++ RESP_SEPERATOR)]).released = 1 ∧
      ∃ mid, (send_command [] .ok .ok [.data (RESP_TERMINATOR ++ RESP_SEPERATOR)]).trace =
          Ev.acquire :: (mid ++ [Ev.release]) ∧ Ev.acquire ∉ mid ∧ Ev.release ∉ mid) :=
  lock_discipline [] .ok .ok [.data (RESP_TERMINATOR ++ RESP_SEPERATOR)] _ rfl (by decide)

/-- C3: in a command transaction whose read loop terminates normally,
every processed line that matches a registered URC prefix is appended to
the URC buffer and never appears in the command's result sequence, and
every processed line that matches no registered prefix appears in the
result sequence. -/
theorem urc_routing (urc : List ByteStr) (script : List RawRead)
    (responses urcBuf : List ByteStr)
    (h : read urc RESP_SEPERATOR RESP_TERMINATOR script [] [] = .ok responses urcBuf) :
    ∀ line ∈ processedLines RESP_SEPERATOR RESP_TERMINATOR script,
      (matchesUrc urc line = true → line ∈ urcBuf ∧ line ∉ responses) ∧
      (matchesUrc urc line = false → line ∈ responses) := by
  obtain ⟨h1, h2⟩ :=
    read_ok_spec urc RESP_SEPERATOR RESP_TERMINATOR script [] [] responses urcBuf h
  subst h1; subst h2
  intro line hline
  refine ⟨fun hm => ⟨?_, ?_⟩, fun hm => ?_⟩
  · simp [List.mem_filter, hline, hm]
  · simp [List.mem_filter, hm]
  · simp [List.mem_filter, hline, hm]

/-- Witness for C3 on the spec's scenario: `+CMTI: ...` is buffered and
kept out of the results, `+CREG: 1` is delivered. -/
theorem urc_routing_witness :
    ((matchesUrc [cmtiUrc] cmtiLine = true →
        cmtiLine ∈ [cmtiLine] ∧ cmtiLine ∉ [cregLine, RESP_TERMINATOR]) ∧
      (matchesUrc [cmtiUrc] cmtiLine = false →
        cmtiLine ∈ [cregLine, RESP_TERMINATOR])) ∧
    ((matchesUrc [cmtiUrc] cregLine = true →
        cregLine ∈ [cmtiLine] ∧ cregLine ∉ [cregLine, RESP_TERMINATOR]) ∧
      (matchesUrc [cmtiUrc] cregLine = false →
        cregLine ∈ [cregLine, RESP_TERMINATOR])) :=
  ⟨urc_routing [cmtiUrc] scenarioScript [cregLine, RESP_TERMINATOR] [cmtiLine]
      (by decide) cmtiLine (by decide),
   urc_routing [cmtiUrc] scenarioScript [cregLine, RESP_TERMINATOR] [cmtiLine]
      (by decide) cregLine (by decide)⟩

/-- C4 counterexample: the claim is false on the code.  On the spec's
scenario the result sequence is not `[b'+CREG: 1']`, and a
terminator-only exchange does not yield an empty result sequence —
because `read` appends each non-matching line (including the terminator
line) to `responses` at line 74 before the loop-exit test at line 75. -/
theorem terminator_in_results_cex :
    (send_command [cmtiUrc] .ok .ok scenarioScript).outcome ≠ .returns [cregLine] ∧
    (send_command [] .ok .ok [.data (RESP_TERMINATOR ++ RESP_SEPERATOR)]).outcome ≠
      .returns [] := by decide

/-- C4 amended: a terminator-only exchange yields the one-element result
sequence `[b'OK']`, and on the spec's scenario the result sequence is
`[b'+CREG: 1', b'OK']` with the URC buffer receiving `[b'+CMTI: ...']` —
the terminator line is part of the result sequence whenever it does not
match a URC prefix. -/
theorem terminator_in_results :
    (send_command [] .ok .ok [.data (RESP_TERMINATOR ++ RESP_SEPERATOR)]).outcome =
      .returns [RESP_TERMINATOR] ∧
    (send_command [cmtiUrc] .ok .ok scenarioScript).outcome =
      .returns [cregLine, RESP_TERMINATOR] ∧
    (send_command [cmtiUrc] .ok .ok scenarioScript).urcBuf = [cmtiLine] := by decide

/-- C5: every `Exception`-class error raised during the write or read
steps of a command transaction is caught by the `except Exception`
handler at line 58, logged, and turned into an empty result sequence
returned to the caller — the caller never observes such an exception.
(Cancellation is a `BaseException` and is outside this claim; it is the
subject of the C6 theorem.) -/
theorem exception_absorbed (urc : List ByteStr) (e : PyExn) (script : List RawRead)
    (he : isException e = true) :
    (send_command urc .ok (.raises e) script).outcome = .returns [] ∧
    (∀ urcBuf, read urc RESP_SEPERATOR RESP_TERMINATOR script [] [] = .exn e urcBuf →
      (send_command urc .ok .ok script).outcome = .returns []) := by
  constructor
  · simp [send_command, he]
  · intro urcBuf h
    simp [send_command, h, he]

/-- Witness for C5: a write-step failure and a read-step `TypeError`
(produced by a timeout sentinel) both surface as an empty result. -/
theorem exception_absorbed_witness :
    (send_command [] .ok (.raises .other) []).outcome = .returns [] ∧
    (send_command [] .ok .ok [.timeout]).outcome = .returns [] :=
  ⟨(exception_absorbed [] .other [] rfl).1,
   (exception_absorbed [] .typeError [.timeout] rfl).2 [] (by decide)⟩

/-- C6 (code bug): cancellation is propagated by the URC drain loop
(`except CancelledError: raise`, line 101) and cleanly terminates the
background read loop (`except CancelledError: return`, lines 113-114),
but a cancellation delivered during the read step of a command
transaction is swallowed: `send_command`'s `finally` block executes
`return responses` (line 63), which discards the in-flight
`CancelledError`, and since the local `responses` was never bound the
caller sees a `NameError` instead of the cancellation unwinding. -/
theorem cancellation_swallowed_in_send_command :
    urc_handler_loop_iter (some .cancelled) = .propagate .cancelled ∧
    read_loop_iter .cancelled = .terminate ∧
    (send_command [] .ok .ok [RawRead.cancelled]).outcome = .raises .nameError ∧
    (send_command [] .ok .ok [RawRead.cancelled]).outcome ≠ .raises .cancelled := by
  decide

/-- C7: the line framer fails in exactly two cases — the stream closing
before the separator (incomplete read) and no separator within the
timeout — and in both it returns the `None` sentinel instead of letting
the exception escape; on any delivered chunk it returns a Response
line. -/
theorem read_response_failure_modes (sep : ByteStr) (r : RawRead) :
    (read_response sep r = .ok none ↔ (r = .incomplete ∨ r = .timeout)) ∧
    (∀ bs, r = .data bs → read_response sep r = .ok (some (pyRstrip bs sep))) := by
  constructor
  · cases r <;> simp [read_response]
  · intro bs h
    subst h
    rfl

/-- Witness for C7: the timeout failure mode and a concrete framed line. -/
theorem read_response_failure_modes_witness :
    read_response RESP_SEPERATOR .timeout = .ok none ∧
    read_response RESP_SEPERATOR (.data [65, 13, 10]) =
      .ok (some (pyRstrip [65, 13, 10] RESP_SEPERATOR)) :=
  ⟨(read_response_failure_modes RESP_SEPERATOR .timeout).1.mpr (Or.inr rfl),
   (read_response_failure_modes RESP_SEPERATOR (.data [65, 13, 10])).2 [65, 13, 10] rfl⟩

/-- Modelled from the spec's words for the C9 comparison: "the bytes read
with exactly the one trailing separator occurrence removed". -/
def stripOneSep (bs sep : ByteStr) : ByteStr :=
  bs.take (bs.length - sep.length)

/-- C9 counterexample: the claim is false on the code.  The raw chunk
`b'abc\r\r\n'` ends in exactly one occurrence of the separator and its
body `b'abc\r'` ends in a carriage-return byte; `read_response` uses
Python `bytes.rstrip`, which strips by byte set, so it produces
`b'abc'` — not the one-occurrence strip `b'abc\r'` the claim
describes. -/
theorem rstrip_cex :
    [97, 98, 99, 13] ++ RESP_SEPERATOR = [97, 98, 99, 13, 13, 10] ∧
    stripOneSep [97, 98, 99, 13, 13, 10] RESP_SEPERATOR = [97, 98, 99, 13] ∧
    read_response RESP_SEPERATOR (.data [97, 98, 99, 13, 13, 10]) ≠
      .ok (some (stripOneSep [97, 98, 99, 13, 13, 10] RESP_SEPERATOR)) ∧
    read_response RESP_SEPERATOR (.data [97, 98, 99, 13, 13, 10]) =
      .ok (some [97, 98, 99]) := by decide

/-- C9 amended: for every raw chunk ending in the separator,
`read_response` produces the chunk with all trailing carriage-return and
line-feed bytes removed (Python `bytes.rstrip` character-set semantics),
which equals one-occurrence removal exactly when the line body does not
itself end in a CR or LF byte. -/
theorem read_response_rstrip_append (body : ByteStr) :
    read_response RESP_SEPERATOR (.data (body ++ RESP_SEPERATOR)) =
      .ok (some (pyRstrip body RESP_SEPERATOR)) := by
  simp [read_response, pyRstrip, RESP_SEPERATOR, List.dropWhile_cons]

/-- Helper for C10: if the stream script delivers lines none of which
equals the terminator and then a no-response sentinel, the read loop
raises `TypeError` (the sentinel `None` hits `bytes(None)`). -/
theorem read_sentinel_typeError (urc : List ByteStr) (sep term : ByteStr) :
    ∀ (pre : List RawRead) (raw : RawRead) (rest : List RawRead) (r0 b0 : List ByteStr),
      (∀ x ∈ pre, ∃ bs, x = RawRead.data bs ∧ pyRstrip bs sep ≠ term) →
      (raw = .incomplete ∨ raw = .timeout) →
      ∃ urcBuf, read urc sep term (pre ++ raw :: rest) r0 b0 = .exn .typeError urcBuf
  | [], raw, rest, r0, b0 => by
    intro _ hraw
    refine ⟨b0, ?_⟩
    rcases hraw with h | h <;> subst h <;> rfl
  | x :: pre, raw, rest, r0, b0 => by
    intro hpre hraw
    obtain ⟨bs, hx, hterm⟩ := hpre x (by simp)
    subst hx
    have hpre' : ∀ y ∈ pre, ∃ bs, y = RawRead.data bs ∧ pyRstrip bs sep ≠ term :=
      fun y hy => hpre y (by simp [hy])
    rw [List.cons_append, read]
    simp only [read_response]
    by_cases hm : matchesUrc urc (pyRstrip bs sep)
    · simp only [hm, if_true, if_neg hterm]
      exact read_sentinel_typeError urc sep term pre raw rest r0 (b0 ++ [pyRstrip bs sep]) hpre' hraw
    · simp only [hm, Bool.false_eq_true, if_false, if_neg hterm]
      exact read_sentinel_typeError urc sep term pre raw rest (r0 ++ [pyRstrip bs sep]) b0 hpre' hraw

/-- C10: a command transaction in which a per-line read yields the
no-response sentinel before any terminator line has been observed
returns the empty list from `send_command`: the lines already read in
that transaction are discarded and never delivered to the caller.  (The
sentinel surfaces as a `TypeError` from `bytes(None)` inside `read`,
which the `except Exception` handler converts to `responses = []`.) -/
theorem timeout_discards_partial (urc : List ByteStr) (pre : List RawRead)
    (raw : RawRead) (rest : List RawRead)
    (hpre : ∀ x ∈ pre, ∃ bs, x = RawRead.data bs ∧
      pyRstrip bs RESP_SEPERATOR ≠ RESP_TERMINATOR)
    (hraw : raw = .incomplete ∨ raw = .timeout) :
    (send_command urc .ok .ok (pre ++ raw :: rest)).outcome = .returns [] := by
  obtain ⟨urcBuf, h⟩ :=
    read_sentinel_typeError urc RESP_SEPERATOR RESP_TERMINATOR pre raw rest [] [] hpre hraw
  simp [send_command, h, isException]

/-- Witness for C10: a transaction that reads `+CREG: 1` and then times
out returns `[]`, discarding the already-read line. -/
theorem timeout_discards_partial_witness :
    (send_command [cmtiUrc] .ok .ok
        [.data (cregLine ++ RESP_SEPERATOR), RawRead.timeout]).outcome = .returns [] := by
  have h := timeout_discards_partial [cmtiUrc] [.data (cregLine ++ RESP_SEPERATOR)]
    RawRead.timeout []
    (by
      intro x hx
      rw [List.mem_singleton] at hx
      subst hx
      exact ⟨cregLine ++ RESP_SEPERATOR, rfl, by decide⟩)
    (Or.inr rfl)
  simpa using h

/-- C8 counterexample: the claim is false on the code.  Starting from an
engine with a running background reader, `close` leaves the reader task
uncancelled and unawaited (it only sets the closed flag and closes the
stream); `stop_read_loop` is the routine that would cancel it, and
`close` never calls it. -/
theorem close_no_cancel_cex :
    (close ⟨false, false, false, false⟩).loopCancelRequested = false ∧
    (close ⟨false, false, false, false⟩).loopAwaited = false ∧
    (close ⟨false, false, false, false⟩).closeFlag = true ∧
    (stop_read_loop ⟨false, false, false, false⟩).loopCancelRequested = true := by decide

/-- C8 amended: `close` sets the `_close` flag and closes the stream, and
does nothing else — in particular it does not cancel or await the
background reader loop task (and since no operation consults the flag,
further operations are not rejected). -/
theorem close_behavior (s : CloseState) :
    close s = { s with closeFlag := true, streamClosed := true } ∧
    (close s).loopCancelRequested = s.loopCancelRequested ∧
    (close s).loopAwaited = s.loopAwaited :=
  ⟨rfl, rfl, rfl⟩

end ATModem

/-!
## Part 2: the transaction lock vs. the background reader loop

A small-step model of the cooperative asyncio execution of
`base/modem.py`, for the temporal claim about `lock` / `unlock`
(lines 37-45), `send_command` (lines 53-63), `read_loop` (lines 105-114),
`start_read_loop` (lines 116-117) and `stop_read_loop` (lines 119-125).

The model follows asyncio's semantics:

* The event loop owns a FIFO queue of ready callbacks (`call_soon`
  order).  One step of the system pops the head callback and runs the
  corresponding coroutine up to its next true suspension point; that run
  is atomic (cooperative scheduling — no preemption between awaits).
* `asyncio.Lock.release` sets `_locked = False` and wakes the first
  waiter by scheduling its resumption (`Cb.txnGrant`); the waiter
  removes itself from the waiter list and sets `_locked = True` only
  when its callback runs, so there is a window in which the lock shows
  unlocked while a waiter has been designated.  A fresh `acquire` takes
  the fast path only when the lock is unlocked and no waiters are
  queued, otherwise it appends itself to the FIFO waiter list.
* `Task.cancel` on a task blocked at an await schedules delivery of
  `CancelledError` at that await; on a not-yet-started task the
  exception is delivered when the task first runs, before any of its
  body executes.  `await task` on a task that is already done resumes
  without suspending; on a live task it suspends and is rescheduled when
  the task finishes (awaiters are woken in registration order).
* `read_loop`'s body catches `CancelledError` and returns, so a
  cancelled loop task always terminates at its next resumption;
  `stop_read_loop` catches the `CancelledError` that `await task`
  re-raises for a cancelled task.  Per the spec's transport interface
  (section 6) the stream read fails only with the absorbed
  incomplete/timeout conditions, and per spec section 4.3 the URC
  handler propagates only cancellation, so the loop task never dies
  with any other exception.

Transactions are spawned at arbitrary times and their per-line reads
complete (data or timeout) at arbitrary times: these external events are
extra nondeterministic transitions that respect the one-pending-wakeup
discipline of a future.  Cancellation of the `send_command` caller's own
task is outside this model (it is the subject of claim C6, handled in
Part 1).

The claim under verification (C1): whenever the lock is held for a
command transaction, the loop is not running (no loop task is engaged in
a read), and a loop iteration beginning while the lock is held does not
start a read — the defensive entry check of `read_loop` (lines 106-107)
returns instead.
-/

namespace LoopLock

/-- Pointwise update of a function `Nat → α`. -/
def upd {α : Type} (f : Nat → α) (i : Nat) (v : α) : Nat → α :=
  fun j => if j = i then v else f j

@[simp] theorem upd_same {α : Type} (f : Nat → α) (i : Nat) (v : α) :
    upd f i v i = v := by simp [upd]

@[simp] theorem upd_other {α : Type} (f : Nat → α) {i j : Nat} (v : α) (h : j ≠ i) :
    upd f i v j = f j := by simp [upd, h]

theorem upd_apply {α : Type} (f : Nat → α) (i j : Nat) (v : α) :
    upd f i v j = if j = i then v else f j := rfl

/-- Status of one created `read_loop` task (one *generation*; every
`start_read_loop` call creates a fresh generation):
`notStarted` — the task object exists, its first callback has not run;
`reading` — the task passed the entry check and is inside the
`while True` loop, blocked at (or between) its stream reads;
`dead` — the task finished (entry-check return, cancellation, or
cancel-before-start). -/
inductive LStat where
  | notStarted
  | reading
  | dead
deriving DecidableEq, Repr

/-- Program counter of one `send_command` caller between suspension
points: `tStart` — task created, `send_command` body not yet entered;
`tAwaitLoop g` — inside `stop_read_loop`, suspended on `await` of loop
generation `g`; `tWaitLock` — queued in the lock's FIFO waiter list;
`tCritReading` — holding the lock, blocked at a `read_response` of the
command transaction; `tDone` — `send_command` exited (or the id is
unused). -/
inductive TStat where
  | tStart
  | tAwaitLoop (g : Nat)
  | tWaitLock
  | tCritReading
  | tDone
deriving DecidableEq, Repr

/-- A ready callback in the event loop's FIFO queue:
`loopStart g` — first run of loop-task generation `g`;
`loopRun g` — resumption of generation `g`'s blocked stream read
(data arrived, or the scheduled cancellation delivery);
`txnStart t` — first run of transaction `t`'s `send_command`;
`txnResume t` — resumption of transaction `t` from its current await
(task-wait completion or command-read completion/timeout);
`txnGrant t` — resumption of lock waiter `t` scheduled by
`Lock.release`. -/
inductive Cb where
  | loopStart (g : Nat)
  | loopRun (g : Nat)
  | txnStart (t : Nat)
  | txnResume (t : Nat)
  | txnGrant (t : Nat)
deriving DecidableEq, Repr

/-- State of the engine together with its event loop. -/
structure Sys where
  queue : List Cb
  locked : Bool
  waiters : List Nat
  loopStat : Nat → LStat
  cancelReq : Nat → Bool
  loopAwaiters : Nat → List Nat
  curGen : Nat
  nextGen : Nat
  txn : Nat → TStat
  nextTxn : Nat

/-- One atomic step: either an external event (a transaction spawned,
data arriving for a blocked read) or the event loop popping and running
the head callback to its next suspension point.  Each constructor is a
transcription of the corresponding source path; see the constructor
comments. -/
inductive Step : Sys → Sys → Prop where
  /-- A caller creates a `send_command` task; its first run is queued. -/
  | spawn (s : Sys) :
      Step s { s with queue := s.queue ++ [Cb.txnStart s.nextTxn],
                      txn := upd s.txn s.nextTxn .tStart,
                      nextTxn := s.nextTxn + 1 }
  /-- A line (or an absorbed timeout/incomplete read) arrives for the
  loop's blocked `read_response`: its resumption is scheduled, at most
  one pending per future. -/
  | loopData (s : Sys) (g : Nat) (hg : s.loopStat g = .reading)
      (hq : Cb.loopRun g ∉ s.queue) :
      Step s { s with queue := s.queue ++ [Cb.loopRun g] }
  /-- A line (or timeout) arrives for a transaction's blocked
  `read_response`: its resumption is scheduled. -/
  | txnData (s : Sys) (t : Nat) (ht : s.txn t = .tCritReading)
      (hq : Cb.txnResume t ∉ s.queue) :
      Step s { s with queue := s.queue ++ [Cb.txnResume t] }
  /-- First run of loop generation `g` when it was cancelled before
  starting (the `CancelledError` is thrown before the body runs) or the
  defensive entry check `if self._lock.locked(): return` (lines 106-107)
  fires: the task dies without reading; txns awaiting it are woken. -/
  | loopStartDead (s : Sys) (g : Nat) (rest : List Cb)
      (hq : s.queue = Cb.loopStart g :: rest)
      (hd : s.cancelReq g = true ∨ s.locked = true) :
      Step s { s with queue := rest ++ (s.loopAwaiters g).map Cb.txnResume,
                      loopStat := upd s.loopStat g .dead,
                      loopAwaiters := upd s.loopAwaiters g [] }
  /-- First run of loop generation `g`, uncancelled, lock free: the
  entry check passes, the `while True` loop begins and blocks at its
  first `read_response` (line 110). -/
  | loopStartRead (s : Sys) (g : Nat) (rest : List Cb)
      (hq : s.queue = Cb.loopStart g :: rest)
      (hc : s.cancelReq g = false) (hl : s.locked = false) :
      Step s { s with queue := rest, loopStat := upd s.loopStat g .reading }
  /-- Resumption of a cancelled reading loop task: `CancelledError` is
  raised at the await, `except asyncio.CancelledError: return`
  (lines 113-114) terminates the loop; awaiting txns are woken. -/
  | loopRunDead (s : Sys) (g : Nat) (rest : List Cb)
      (hq : s.queue = Cb.loopRun g :: rest)
      (hc : s.cancelReq g = true) :
      Step s { s with queue := rest ++ (s.loopAwaiters g).map Cb.txnResume,
                      loopStat := upd s.loopStat g .dead,
                      loopAwaiters := upd s.loopAwaiters g [] }
  /-- Resumption of an uncancelled reading loop task: the line is
  dispatched to the URC handler and the loop blocks at its next
  `read_response`. -/
  | loopRunCont (s : Sys) (g : Nat) (rest : List Cb)
      (hq : s.queue = Cb.loopRun g :: rest)
      (hc : s.cancelReq g = false) :
      Step s { s with queue := rest }
  /-- First run of transaction `t` when the current loop task is already
  dead: `stop_read_loop`'s `cancel` is a no-op and its `await` of a done
  task does not suspend (a stored `CancelledError` is caught at
  line 124), so `t` proceeds into `self._lock.acquire()` in the same
  run; the lock is free with no waiters, so the fast path takes it and
  `t` writes the command (lines 47-51) and blocks at its first response
  read (line 70). -/
  | txnStartAcquire (s : Sys) (t : Nat) (rest : List Cb)
      (hq : s.queue = Cb.txnStart t :: rest)
      (hg : s.loopStat s.curGen = .dead)
      (hl : s.locked = false) (hw : s.waiters = []) :
      Step s { s with queue := rest, locked := true,
                      txn := upd s.txn t .tCritReading }
  /-- As above, but the lock is held or has waiters: `t` joins the FIFO
  waiter list and suspends inside `acquire`. -/
  | txnStartWait (s : Sys) (t : Nat) (rest : List Cb)
      (hq : s.queue = Cb.txnStart t :: rest)
      (hg : s.loopStat s.curGen = .dead)
      (hlw : s.locked = true ∨ s.waiters ≠ []) :
      Step s { s with queue := rest, waiters := s.waiters ++ [t],
                      txn := upd s.txn t .tWaitLock }
  /-- First run of transaction `t` while the current loop task is alive:
  `stop_read_loop` cancels it (`read_loop_task.cancel()`, line 121; if
  the task is blocked at a read and no wakeup is pending, the
  cancellation delivery is scheduled now) and suspends awaiting the
  task's termination (line 123). -/
  | txnStartCancel (s : Sys) (t : Nat) (rest : List Cb)
      (hq : s.queue = Cb.txnStart t :: rest)
      (hg : s.loopStat s.curGen ≠ .dead) :
      Step s { s with
        queue := rest ++
          (if s.loopStat s.curGen = .reading ∧ Cb.loopRun s.curGen ∉ rest
           then [Cb.loopRun s.curGen] else []),
        cancelReq := upd s.cancelReq s.curGen true,
        loopAwaiters := upd s.loopAwaiters s.curGen
          (s.loopAwaiters s.curGen ++ [t]),
        txn := upd s.txn t (.tAwaitLoop s.curGen) }
  /-- Resumption of a transaction whose awaited loop generation died:
  `stop_read_loop` returns (catching the re-raised `CancelledError`) and
  `lock()` proceeds to `acquire`; free-with-no-waiters fast path — the
  transaction takes the lock, writes, and blocks at its first response
  read. -/
  | txnResumeAcquire (s : Sys) (t : Nat) (g : Nat) (rest : List Cb)
      (hq : s.queue = Cb.txnResume t :: rest)
      (ht : s.txn t = .tAwaitLoop g)
      (hl : s.locked = false) (hw : s.waiters = []) :
      Step s { s with queue := rest, locked := true,
                      txn := upd s.txn t .tCritReading }
  /-- As above, but the lock is held or has waiters: the transaction
  joins the waiter list. -/
  | txnResumeWait (s : Sys) (t : Nat) (g : Nat) (rest : List Cb)
      (hq : s.queue = Cb.txnResume t :: rest)
      (ht : s.txn t = .tAwaitLoop g)
      (hlw : s.locked = true ∨ s.waiters ≠ []) :
      Step s { s with queue := rest, waiters := s.waiters ++ [t],
                      txn := upd s.txn t .tWaitLock }
  /-- A response line arrives for the transaction holding the lock and
  its `read` loop continues with another `read_response`: it stays in
  the critical section, blocked at the next read. -/
  | txnCritCont (s : Sys) (t : Nat) (rest : List Cb)
      (hq : s.queue = Cb.txnResume t :: rest)
      (ht : s.txn t = .tCritReading) :
      Step s { s with queue := rest }
  /-- The transaction holding the lock finishes (terminator seen, or the
  exception path of `send_command` — either way the `finally` runs
  `unlock()`, line 62): `release()` sets the lock unlocked and schedules
  the first waiter's grant, then `start_read_loop()` (line 44) creates a
  fresh loop generation and schedules its first run — in that push
  order. -/
  | txnCritFinish (s : Sys) (t : Nat) (rest : List Cb)
      (hq : s.queue = Cb.txnResume t :: rest)
      (ht : s.txn t = .tCritReading) :
      Step s { s with
        queue := rest ++
          (match s.waiters with | [] => [] | w :: _ => [Cb.txnGrant w]) ++
          [Cb.loopStart s.nextGen],
        locked := false,
        loopStat := upd s.loopStat s.nextGen .notStarted,
        curGen := s.nextGen,
        nextGen := s.nextGen + 1,
        txn := upd s.txn t .tDone }
  /-- The woken lock waiter resumes inside `acquire`: it removes itself
  from the waiter list, marks the lock locked, and proceeds to write its
  command and block at its first response read. -/
  | txnGrantRun (s : Sys) (t : Nat) (rest : List Cb)
      (hq : s.queue = Cb.txnGrant t :: rest) :
      Step s { s with queue := rest, locked := true,
                      waiters := s.waiters.tail,
                      txn := upd s.txn t .tCritReading }

/-- The engine right after `connect` (lines 29-35): the first loop
generation is created and scheduled, the lock is free, no transactions
exist yet. -/
def init : Sys :=
  { queue := [Cb.loopStart 0], locked := false, waiters := [],
    loopStat := fun g => if g = 0 then .notStarted else .dead,
    cancelReq := fun _ => false,
    loopAwaiters := fun _ => [],
    curGen := 0, nextGen := 1,
    txn := fun _ => .tDone, nextTxn := 0 }

/-- States reachable from the freshly connected engine. -/
inductive Reachable : Sys → Prop where
  | init : Reachable init
  | step {s s' : Sys} : Reachable s → Step s s' → Reachable s'

/-- `NoBefore P Q l`: no element satisfying `P` occurs strictly before
an element satisfying `Q` in `l`. -/
def NoBefore (P Q : Cb → Prop) : List Cb → Prop
  | [] => True
  | c :: rest => (P c → ∀ x ∈ rest, ¬ Q x) ∧ NoBefore P Q rest

/-- The callback is a loop-task first run. -/
def isLoopStart : Cb → Prop := fun c => ∃ g, c = Cb.loopStart g

/-- The callback is a lock grant. -/
def isGrant : Cb → Prop := fun c => ∃ t, c = Cb.txnGrant t

/-- The callback resumes the transaction currently in its critical
section. -/
def isCritResume (txn : Nat → TStat) : Cb → Prop :=
  fun c => ∃ t, c = Cb.txnResume t ∧ txn t = .tCritReading

/-- The callback resumes a transaction suspended on a loop-task await. -/
def isAwaitResume (txn : Nat → TStat) : Cb → Prop :=
  fun c => ∃ t g, c = Cb.txnResume t ∧ txn t = .tAwaitLoop g

end LoopLock

namespace LoopLock

theorem noBefore_cons {P Q : Cb → Prop} {c : Cb} {rest : List Cb} :
    NoBefore P Q (c :: rest) ↔
      ((P c → ∀ x ∈ rest, ¬ Q x) ∧ NoBefore P Q rest) := Iff.rfl

theorem noBefore_append {P Q : Cb → Prop} :
    ∀ {l m : List Cb}, NoBefore P Q (l ++ m) ↔
      (NoBefore P Q l ∧ NoBefore P Q m ∧ ∀ c ∈ l, P c → ∀ x ∈ m, ¬ Q x)
  | [], m => by simp [NoBefore]
  | c :: l, m => by
    simp only [List.cons_append, noBefore_cons, noBefore_append (l := l) (m := m)]
    constructor
    · rintro ⟨h1, h2, h3, h4⟩
      refine ⟨⟨fun hc x hx => h1 hc x (by simp [hx]), h2⟩, h3, ?_⟩
      intro a ha hpa
      rcases List.mem_cons.mp ha with rfl | ha
      · exact fun x hx => h1 hpa x (by simp [hx])
      · exact h4 a ha hpa
    · rintro ⟨⟨h1, h2⟩, h3, h4⟩
      refine ⟨?_, h2, h3, fun a ha hpa => h4 a (by simp [ha]) hpa⟩
      intro hc x hx
      rcases List.mem_append.mp hx with hx | hx
      · exact h1 hc x hx
      · exact h4 c (by simp) hc x hx

theorem noBefore_of_notP {P Q : Cb → Prop} :
    ∀ {l : List Cb}, (∀ c ∈ l, ¬ P c) → NoBefore P Q l
  | [], _ => trivial
  | c :: l, h =>
    ⟨fun hc => absurd hc (h c (by simp)),
     noBefore_of_notP (fun x hx => h x (by simp [hx]))⟩

theorem noBefore_of_notQ {P Q : Cb → Prop} :
    ∀ {l : List Cb}, (∀ c ∈ l, ¬ Q c) → NoBefore P Q l
  | [], _ => trivial
  | c :: l, h =>
    ⟨fun _ x hx => h x (by simp [hx]),
     noBefore_of_notQ (fun x hx => h x (by simp [hx]))⟩

theorem noBefore_mono {P Q P' Q' : Cb → Prop} :
    ∀ {l : List Cb}, NoBefore P Q l →
      (∀ c ∈ l, P' c → P c) → (∀ c ∈ l, Q' c → Q c) → NoBefore P' Q' l
  | [], _, _, _ => trivial
  | c :: l, ⟨h1, h2⟩, hp, hq =>
    ⟨fun hc x hx hqx => h1 (hp c (by simp) hc) x hx (hq x (by simp [hx]) hqx),
     noBefore_mono h2 (fun x hx => hp x (by simp [hx]))
       (fun x hx => hq x (by simp [hx]))⟩

/-- The inductive invariant of the system.  The safety clauses
(`lockedNoReading` in particular) state claim C1; the rest is the
bookkeeping needed to push the invariant through every step. -/
structure Inv (s : Sys) : Prop where
  nodupQueue : s.queue.Nodup
  loopStartMem : ∀ g, Cb.loopStart g ∈ s.queue ↔ s.loopStat g = .notStarted
  loopRunMem : ∀ g, Cb.loopRun g ∈ s.queue → s.loopStat g = .reading
  txnStartMem : ∀ t, Cb.txnStart t ∈ s.queue ↔ s.txn t = .tStart
  awaitState : ∀ t g, s.txn t = .tAwaitLoop g →
      (s.loopStat g ≠ .dead ∧ t ∈ s.loopAwaiters g ∧ Cb.txnResume t ∉ s.queue) ∨
      (s.loopStat g = .dead ∧ Cb.txnResume t ∈ s.queue)
  resumeMem : ∀ t, Cb.txnResume t ∈ s.queue →
      (∃ g, s.txn t = .tAwaitLoop g) ∨ s.txn t = .tCritReading
  grantMem : ∀ t, Cb.txnGrant t ∈ s.queue →
      s.txn t = .tWaitLock ∧ s.waiters.head? = some t ∧ s.locked = false
  waitersMem : ∀ t, t ∈ s.waiters ↔ s.txn t = .tWaitLock
  nodupWaiters : s.waiters.Nodup
  awaitersTxn : ∀ g t, t ∈ s.loopAwaiters g → s.txn t = .tAwaitLoop g
  freshGen : ∀ g, s.nextGen ≤ g →
      s.loopStat g = .dead ∧ s.cancelReq g = false ∧ s.loopAwaiters g = []
  curGenLt : s.curGen < s.nextGen
  freshTxn : ∀ t, s.nextTxn ≤ t → s.txn t = .tDone
  deadAwaiters : ∀ g, s.loopStat g = .dead → s.loopAwaiters g = []
  nodupAwaiters : ∀ g, (s.loopAwaiters g).Nodup
  awaitersCancel : ∀ g, s.loopAwaiters g ≠ [] → s.cancelReq g = true
  awaitGenLt : ∀ t g, s.txn t = .tAwaitLoop g → g < s.nextGen
  lockedIffCrit : s.locked = true ↔ ∃ t, s.txn t = .tCritReading
  critUnique : ∀ t u, s.txn t = .tCritReading → s.txn u = .tCritReading → t = u
  waitersGrant : s.locked = false → s.waiters ≠ [] → ∃ t, Cb.txnGrant t ∈ s.queue
  lockedNoReading : s.locked = true → ∀ g, s.loopStat g ≠ .reading
  staleDead : ∀ g, g ≠ s.curGen → s.loopStat g = .dead
  noStartBeforeGrant : NoBefore isLoopStart isGrant s.queue
  noCritBeforeStart : NoBefore (isCritResume s.txn) isLoopStart s.queue
  noStartBeforeAwait : NoBefore isLoopStart (isAwaitResume s.txn) s.queue
  awaitNoReading : ∀ t g, Cb.txnResume t ∈ s.queue → s.txn t = .tAwaitLoop g →
      ∀ g', s.loopStat g' ≠ .reading
  grantNoReading : ∀ t, Cb.txnGrant t ∈ s.queue → ∀ g, s.loopStat g ≠ .reading

/-- The initial state satisfies the invariant. -/
theorem inv_init : Inv init := by
  refine
    { nodupQueue := by simp [init]
      loopStartMem := ?_
      loopRunMem := by simp [init]
      txnStartMem := by simp [init]
      awaitState := by simp [init]
      resumeMem := by simp [init]
      grantMem := by simp [init]
      waitersMem := by simp [init]
      nodupWaiters := by simp [init]
      awaitersTxn := by simp [init]
      freshGen := ?_
      curGenLt := by simp [init]
      freshTxn := by simp [init]
      deadAwaiters := by simp [init]
      nodupAwaiters := by simp [init]
      awaitersCancel := by simp [init]
      awaitGenLt := by simp [init]
      lockedIffCrit := by simp [init]
      critUnique := by simp [init]
      waitersGrant := by simp [init]
      lockedNoReading := by simp [init]
      staleDead := ?_
      noStartBeforeGrant := ?_
      noCritBeforeStart := ?_
      noStartBeforeAwait := ?_
      awaitNoReading := by simp [init]
      grantNoReading := by simp [init] }
  · intro g
    by_cases hg : g = 0 <;> simp [init, hg]
  · intro g hg
    simp only [init] at hg
    have : g ≠ 0 := by omega
    simp [init, this]
  · intro g hg
    have : g ≠ 0 := by simpa [init] using hg
    simp [init, this]
  · exact ⟨by simp [isGrant], trivial⟩
  · exact ⟨by simp [isCritResume, init], trivial⟩
  · exact ⟨by simp [isAwaitResume, init], trivial⟩

end LoopLock

namespace LoopLock

theorem noBefore_push {P Q : Cb → Prop} {l : List Cb} {x : Cb}
    (h : NoBefore P Q l) (hx : ¬ Q x) : NoBefore P Q (l ++ [x]) := by
  rw [noBefore_append]
  refine ⟨h, ⟨fun _ => by simp, trivial⟩, ?_⟩
  intro c _ _ y hy
  rw [List.mem_singleton] at hy
  subst hy
  exact hx

theorem noBefore_tail {P Q : Cb → Prop} {c : Cb} {l : List Cb}
    (h : NoBefore P Q (c :: l)) : NoBefore P Q l := h.2

/-- A pending `loopStart` is always the current generation's. -/
theorem Inv.pendingStart_curGen {s : Sys} (h : Inv s) {g : Nat}
    (hg : Cb.loopStart g ∈ s.queue) : g = s.curGen := by
  by_contra hne
  have hd := h.staleDead g hne
  have := (h.loopStartMem g).mp hg
  rw [hd] at this
  exact absurd this (by simp)

/-- When the lock is free no transaction is in its critical section. -/
theorem Inv.noCrit_of_unlocked {s : Sys} (h : Inv s) (hl : s.locked = false) :
    ∀ t, s.txn t ≠ .tCritReading := by
  intro t ht
  have : s.locked = true := h.lockedIffCrit.mpr ⟨t, ht⟩
  rw [hl] at this
  exact absurd this (by simp)

/-- While the lock is held no grant is pending. -/
theorem Inv.noGrant_of_locked {s : Sys} (h : Inv s) (hl : s.locked = true) :
    ∀ t, Cb.txnGrant t ∉ s.queue := by
  intro t ht
  have := (h.grantMem t ht).2.2
  rw [hl] at this
  exact absurd this (by simp)

/-- If the current generation is dead, every generation is dead. -/
theorem Inv.allDead {s : Sys} (h : Inv s) (hc : s.loopStat s.curGen = .dead) :
    ∀ g, s.loopStat g = .dead := by
  intro g
  by_cases hg : g = s.curGen
  · rw [hg]; exact hc
  · exact h.staleDead g hg

/-- Step case: a new transaction is spawned. -/
theorem inv_spawn {s : Sys} (h : Inv s) :
    Inv { s with queue := s.queue ++ [Cb.txnStart s.nextTxn],
                 txn := upd s.txn s.nextTxn .tStart,
                 nextTxn := s.nextTxn + 1 } := by
  have hT : s.txn s.nextTxn = .tDone := h.freshTxn _ le_rfl
  have hTnotStart : Cb.txnStart s.nextTxn ∉ s.queue := by
    intro hc
    have := (h.txnStartMem _).mp hc
    rw [hT] at this
    exact absurd this (by simp)
  refine
    { nodupQueue := ?_
      loopStartMem := ?_
      loopRunMem := ?_
      txnStartMem := ?_
      awaitState := ?_
      resumeMem := ?_
      grantMem := ?_
      waitersMem := ?_
      nodupWaiters := h.nodupWaiters
      awaitersTxn := ?_
      freshGen := h.freshGen
      curGenLt := h.curGenLt
      freshTxn := ?_
      deadAwaiters := h.deadAwaiters
      nodupAwaiters := h.nodupAwaiters
      awaitersCancel := h.awaitersCancel
      awaitGenLt := ?_
      lockedIffCrit := ?_
      critUnique := ?_
      waitersGrant := ?_
      lockedNoReading := h.lockedNoReading
      staleDead := h.staleDead
      noStartBeforeGrant := ?_
      noCritBeforeStart := ?_
      noStartBeforeAwait := ?_
      awaitNoReading := ?_
      grantNoReading := ?_ }
  all_goals dsimp only
  · simp only [List.nodup_append, List.nodup_singleton]
    exact ⟨h.nodupQueue, trivial, by simpa using hTnotStart⟩
  · intro g
    simp only [List.mem_append, List.mem_singleton]
    simpa using h.loopStartMem g
  · intro g hg
    simp only [List.mem_append, List.mem_singleton] at hg
    exact h.loopRunMem g (by simpa using hg)
  · intro t
    simp only [List.mem_append, List.mem_singleton]
    by_cases ht : t = s.nextTxn
    · subst ht
      simp [upd_same]
    · rw [upd_other _ _ ht]
      simp only [Cb.txnStart.injEq]
      constructor
      · rintro (hm | hm)
        · exact (h.txnStartMem t).mp hm
        · exact absurd hm ht
      · intro hm
        exact Or.inl ((h.txnStartMem t).mpr hm)
  · intro t g ht
    by_cases he : t = s.nextTxn
    · subst he
      rw [upd_same] at ht
      exact absurd ht (by simp)
    · rw [upd_other _ _ he] at ht
      rcases h.awaitState t g ht with ⟨h1, h2, h3⟩ | ⟨h1, h2⟩
      · refine Or.inl ⟨h1, h2, ?_⟩
        simp only [List.mem_append, List.mem_singleton]
        rintro (hc | hc)
        · exact h3 hc
        · exact absurd hc (by simp)
      · exact Or.inr ⟨h1, by simp [h2]⟩
  · intro t ht
    simp only [List.mem_append, List.mem_singleton] at ht
    have ht' : Cb.txnResume t ∈ s.queue := by simpa using ht
    have := h.resumeMem t ht'
    have hne : t ≠ s.nextTxn := by
      rintro rfl
      rw [hT] at this
      rcases this with ⟨g, hg⟩ | hg <;> simp at hg
    rw [upd_other _ _ hne]
    exact this
  · intro t ht
    simp only [List.mem_append, List.mem_singleton] at ht
    have ht' : Cb.txnGrant t ∈ s.queue := by simpa using ht
    have := h.grantMem t ht'
    have hne : t ≠ s.nextTxn := by
      rintro rfl
      rw [hT] at this
      simp at this
    rw [upd_other _ _ hne]
    exact this
  · intro t
    by_cases ht : t = s.nextTxn
    · subst ht
      rw [upd_same]
      have : s.nextTxn ∉ s.waiters := by
        intro hc
        have := (h.waitersMem _).mp hc
        rw [hT] at this
        exact absurd this (by simp)
      constructor
      · intro hc
        exact absurd hc this
      · intro hc
        exact absurd hc (by simp)
    · rw [upd_other _ _ ht]
      exact h.waitersMem t
  · intro g t ht
    have := h.awaitersTxn g t ht
    have hne : t ≠ s.nextTxn := by
      rintro rfl
      rw [hT] at this
      exact absurd this (by simp)
    rw [upd_other _ _ hne]
    exact this
  · intro t ht
    have hne : t ≠ s.nextTxn := by omega
    rw [upd_other _ _ hne]
    exact h.freshTxn t (by omega)
  · intro t g ht
    by_cases he : t = s.nextTxn
    · subst he
      rw [upd_same] at ht
      exact absurd ht (by simp)
    · rw [upd_other _ _ he] at ht
      exact h.awaitGenLt t g ht
  · rw [h.lockedIffCrit]
    constructor
    · rintro ⟨t, ht⟩
      have hne : t ≠ s.nextTxn := by
        rintro rfl
        rw [hT] at ht
        exact absurd ht (by simp)
      exact ⟨t, by rw [upd_other _ _ hne]; exact ht⟩
    · rintro ⟨t, ht⟩
      by_cases he : t = s.nextTxn
      · subst he
        rw [upd_same] at ht
        exact absurd ht (by simp)
      · rw [upd_other _ _ he] at ht
        exact ⟨t, ht⟩
  · intro t u ht hu
    by_cases he : t = s.nextTxn
    · subst he
      rw [upd_same] at ht
      exact absurd ht (by simp)
    · by_cases he' : u = s.nextTxn
      · subst he'
        rw [upd_same] at hu
        exact absurd hu (by simp)
      · rw [upd_other _ _ he] at ht
        rw [upd_other _ _ he'] at hu
        exact h.critUnique t u ht hu
  · intro hl hw
    obtain ⟨t, ht⟩ := h.waitersGrant hl hw
    exact ⟨t, by simp [ht]⟩
  · exact noBefore_push h.noStartBeforeGrant (by simp [isGrant])
  · refine noBefore_push ?_ (by simp [isLoopStart])
    refine noBefore_mono h.noCritBeforeStart ?_ (fun c _ => id)
    rintro c hc ⟨t, rfl, ht⟩
    have hne : t ≠ s.nextTxn := by
      rintro rfl
      rw [upd_same] at ht
      exact absurd ht (by simp)
    rw [upd_other _ _ hne] at ht
    exact ⟨t, rfl, ht⟩
  · refine noBefore_push ?_ ?_
    · refine noBefore_mono h.noStartBeforeAwait (fun c _ => id) ?_
      rintro c hc ⟨t, g, rfl, ht⟩
      have hne : t ≠ s.nextTxn := by
        rintro rfl
        rw [upd_same] at ht
        exact absurd ht (by simp)
      rw [upd_other _ _ hne] at ht
      exact ⟨t, g, rfl, ht⟩
    · rintro ⟨t, g, hc, ht⟩
      exact absurd hc (by simp)
  · intro t g ht hg
    simp only [List.mem_append, List.mem_singleton] at ht
    have ht' : Cb.txnResume t ∈ s.queue := by simpa using ht
    by_cases he : t = s.nextTxn
    · subst he
      rw [upd_same] at hg
      exact absurd hg (by simp)
    · rw [upd_other _ _ he] at hg
      exact h.awaitNoReading t g ht' hg
  · intro t ht
    simp only [List.mem_append, List.mem_singleton] at ht
    exact h.grantNoReading t (by simpa using ht)

end LoopLock

namespace LoopLock

/-- Step case: data arrives for the loop's blocked read. -/
theorem inv_loopData {s : Sys} (h : Inv s) (g0 : Nat)
    (hg : s.loopStat g0 = .reading) (hq : Cb.loopRun g0 ∉ s.queue) :
    Inv { s with queue := s.queue ++ [Cb.loopRun g0] } := by
  refine
    { nodupQueue := ?_
      loopStartMem := ?_
      loopRunMem := ?_
      txnStartMem := ?_
      awaitState := ?_
      resumeMem := ?_
      grantMem := ?_
      waitersMem := h.waitersMem
      nodupWaiters := h.nodupWaiters
      awaitersTxn := h.awaitersTxn
      freshGen := h.freshGen
      curGenLt := h.curGenLt
      freshTxn := h.freshTxn
      deadAwaiters := h.deadAwaiters
      nodupAwaiters := h.nodupAwaiters
      awaitersCancel := h.awaitersCancel
      awaitGenLt := h.awaitGenLt
      lockedIffCrit := h.lockedIffCrit
      critUnique := h.critUnique
      waitersGrant := ?_
      lockedNoReading := h.lockedNoReading
      staleDead := h.staleDead
      noStartBeforeGrant := noBefore_push h.noStartBeforeGrant (by simp [isGrant])
      noCritBeforeStart := noBefore_push h.noCritBeforeStart (by simp [isLoopStart])
      noStartBeforeAwait := noBefore_push h.noStartBeforeAwait (by simp [isAwaitResume])
      awaitNoReading := ?_
      grantNoReading := ?_ }
  all_goals dsimp only
  · simp only [List.nodup_append, List.nodup_singleton]
    exact ⟨h.nodupQueue, trivial, by simpa using hq⟩
  · intro g
    simp only [List.mem_append, List.mem_singleton]
    simpa using h.loopStartMem g
  · intro g hgm
    simp only [List.mem_append, List.mem_singleton] at hgm
    rcases hgm with hgm | hgm
    · exact h.loopRunMem g hgm
    · rw [Cb.loopRun.injEq] at hgm
      subst hgm
      exact hg
  · intro t
    simp only [List.mem_append, List.mem_singleton]
    simpa using h.txnStartMem t
  · intro t g ht
    rcases h.awaitState t g ht with ⟨h1, h2, h3⟩ | ⟨h1, h2⟩
    · refine Or.inl ⟨h1, h2, ?_⟩
      simp only [List.mem_append, List.mem_singleton]
      rintro (hc | hc)
      · exact h3 hc
      · exact absurd hc (by simp)
    · exact Or.inr ⟨h1, by simp [h2]⟩
  · intro t ht
    simp only [List.mem_append, List.mem_singleton] at ht
    exact h.resumeMem t (by simpa using ht)
  · intro t ht
    simp only [List.mem_append, List.mem_singleton] at ht
    exact h.grantMem t (by simpa using ht)
  · intro hl hw
    obtain ⟨t, ht⟩ := h.waitersGrant hl hw
    exact ⟨t, by simp [ht]⟩
  · intro t g ht hg'
    simp only [List.mem_append, List.mem_singleton] at ht
    exact h.awaitNoReading t g (by simpa using ht) hg'
  · intro t ht
    simp only [List.mem_append, List.mem_singleton] at ht
    exact h.grantNoReading t (by simpa using ht)

/-- Step case: data (or a timeout) arrives for the critical
transaction's blocked read. -/
theorem inv_txnData {s : Sys} (h : Inv s) (t0 : Nat)
    (ht0 : s.txn t0 = .tCritReading) (hq : Cb.txnResume t0 ∉ s.queue) :
    Inv { s with queue := s.queue ++ [Cb.txnResume t0] } := by
  refine
    { nodupQueue := ?_
      loopStartMem := ?_
      loopRunMem := ?_
      txnStartMem := ?_
      awaitState := ?_
      resumeMem := ?_
      grantMem := ?_
      waitersMem := h.waitersMem
      nodupWaiters := h.nodupWaiters
      awaitersTxn := h.awaitersTxn
      freshGen := h.freshGen
      curGenLt := h.curGenLt
      freshTxn := h.freshTxn
      deadAwaiters := h.deadAwaiters
      nodupAwaiters := h.nodupAwaiters
      awaitersCancel := h.awaitersCancel
      awaitGenLt := h.awaitGenLt
      lockedIffCrit := h.lockedIffCrit
      critUnique := h.critUnique
      waitersGrant := ?_
      lockedNoReading := h.lockedNoReading
      staleDead := h.staleDead
      noStartBeforeGrant := noBefore_push h.noStartBeforeGrant (by simp [isGrant])
      noCritBeforeStart := noBefore_push h.noCritBeforeStart (by simp [isLoopStart])
      noStartBeforeAwait := ?_
      awaitNoReading := ?_
      grantNoReading := ?_ }
  all_goals dsimp only
  · simp only [List.nodup_append, List.nodup_singleton]
    exact ⟨h.nodupQueue, trivial, by simpa using hq⟩
  · intro g
    simp only [List.mem_append, List.mem_singleton]
    simpa using h.loopStartMem g
  · intro g hgm
    simp only [List.mem_append, List.mem_singleton] at hgm
    exact h.loopRunMem g (by simpa using hgm)
  · intro t
    simp only [List.mem_append, List.mem_singleton]
    simpa using h.txnStartMem t
  · intro t g ht
    rcases h.awaitState t g ht with ⟨h1, h2, h3⟩ | ⟨h1, h2⟩
    · refine Or.inl ⟨h1, h2, ?_⟩
      simp only [List.mem_append, List.mem_singleton]
      rintro (hc | hc)
      · exact h3 hc
      · rw [Cb.txnResume.injEq] at hc
        subst hc
        rw [ht0] at ht
        exact absurd ht (by simp)
    · exact Or.inr ⟨h1, by simp [h2]⟩
  · intro t ht
    simp only [List.mem_append, List.mem_singleton] at ht
    rcases ht with ht | ht
    · exact h.resumeMem t ht
    · rw [Cb.txnResume.injEq] at ht
      subst ht
      exact Or.inr ht0
  · intro t ht
    simp only [List.mem_append, List.mem_singleton] at ht
    exact h.grantMem t (by simpa using ht)
  · intro hl hw
    obtain ⟨t, ht⟩ := h.waitersGrant hl hw
    exact ⟨t, by simp [ht]⟩
  · refine noBefore_push h.noStartBeforeAwait ?_
    rintro ⟨t, g, hc, ht⟩
    rw [Cb.txnResume.injEq] at hc
    subst hc
    rw [ht0] at ht
    exact absurd ht (by simp)
  · intro t g ht hg'
    simp only [List.mem_append, List.mem_singleton] at ht
    rcases ht with ht | ht
    · exact h.awaitNoReading t g ht hg'
    · rw [Cb.txnResume.injEq] at ht
      subst ht
      rw [ht0] at hg'
      exact absurd hg' (by simp)
  · intro t ht
    simp only [List.mem_append, List.mem_singleton] at ht
    exact h.grantNoReading t (by simpa using ht)

end LoopLock

namespace LoopLock

theorem txnResume_injective : Function.Injective Cb.txnResume := by
  intro a b hab
  injection hab

/-- Step case: a loop task's first run ends without reading (cancelled
before start, or the defensive entry check saw the lock held). -/
theorem inv_loopStartDead {s : Sys} (h : Inv s) (g0 : Nat) (rest : List Cb)
    (hq : s.queue = Cb.loopStart g0 :: rest)
    (_hd : s.cancelReq g0 = true ∨ s.locked = true) :
    Inv { s with queue := rest ++ (s.loopAwaiters g0).map Cb.txnResume,
                 loopStat := upd s.loopStat g0 .dead,
                 loopAwaiters := upd s.loopAwaiters g0 [] } := by
  have hmem : Cb.loopStart g0 ∈ s.queue := by rw [hq]; simp
  have hg0ns : s.loopStat g0 = .notStarted := (h.loopStartMem g0).mp hmem
  have hg0cur : g0 = s.curGen := h.pendingStart_curGen hmem
  have hnd := h.nodupQueue
  rw [hq] at hnd
  obtain ⟨hheadnot, hndrest⟩ := List.nodup_cons.mp hnd
  have hrestsub : ∀ x, x ∈ rest → x ∈ s.queue := by
    intro x hx; rw [hq]; simp [hx]
  have hNoStartRest : ∀ g', Cb.loopStart g' ∉ rest := by
    intro g' hg'
    have hcur := h.pendingStart_curGen (hrestsub _ hg')
    rw [← hg0cur] at hcur
    subst hcur
    exact hheadnot hg'
  have hWmem : ∀ u, Cb.txnResume u ∈ (s.loopAwaiters g0).map Cb.txnResume ↔
      u ∈ s.loopAwaiters g0 := by
    intro u
    simp only [List.mem_map]
    constructor
    · rintro ⟨a, ha, hau⟩
      have : a = u := by injection hau
      subst this
      exact ha
    · intro hu
      exact ⟨u, hu, rfl⟩
  have hWnores : ∀ u ∈ s.loopAwaiters g0, Cb.txnResume u ∉ s.queue := by
    intro u hu
    have htu := h.awaitersTxn g0 u hu
    rcases h.awaitState u g0 htu with ⟨_, _, h3⟩ | ⟨hdead, _⟩
    · exact h3
    · rw [hg0ns] at hdead
      exact absurd hdead (by simp)
  have hWshape : ∀ x ∈ (s.loopAwaiters g0).map Cb.txnResume,
      ∃ u, x = Cb.txnResume u ∧ u ∈ s.loopAwaiters g0 := by
    intro x hx
    rcases List.mem_map.mp hx with ⟨u, hu, rfl⟩
    exact ⟨u, rfl, hu⟩
  refine
    { nodupQueue := ?_
      loopStartMem := ?_
      loopRunMem := ?_
      txnStartMem := ?_
      awaitState := ?_
      resumeMem := ?_
      grantMem := ?_
      waitersMem := h.waitersMem
      nodupWaiters := h.nodupWaiters
      awaitersTxn := ?_
      freshGen := ?_
      curGenLt := h.curGenLt
      freshTxn := h.freshTxn
      deadAwaiters := ?_
      nodupAwaiters := ?_
      awaitersCancel := ?_
      awaitGenLt := h.awaitGenLt
      lockedIffCrit := h.lockedIffCrit
      critUnique := h.critUnique
      waitersGrant := ?_
      lockedNoReading := ?_
      staleDead := ?_
      noStartBeforeGrant := ?_
      noCritBeforeStart := ?_
      noStartBeforeAwait := ?_
      awaitNoReading := ?_
      grantNoReading := ?_ }
  all_goals dsimp only
  · refine List.Nodup.append hndrest
      (List.Nodup.map txnResume_injective (h.nodupAwaiters g0)) ?_
    intro x hx hx'
    obtain ⟨u, rfl, hu⟩ := hWshape x hx'
    exact hWnores u hu (hrestsub _ hx)
  · intro g
    constructor
    · intro hg
      rcases List.mem_append.mp hg with hg | hg
      · exact absurd hg (hNoStartRest g)
      · obtain ⟨u, hu, _⟩ := hWshape _ hg
        exact absurd hu (by simp)
    · intro hg
      by_cases he : g = g0
      · subst he
        rw [upd_same] at hg
        exact absurd hg (by simp)
      · rw [upd_other _ _ he] at hg
        have : g = s.curGen := by
          by_contra hne
          have := h.staleDead g hne
          rw [this] at hg
          exact absurd hg (by simp)
        rw [← hg0cur] at this
        exact absurd this he
  · intro g hg
    rcases List.mem_append.mp hg with hg | hg
    · have hold := h.loopRunMem g (hrestsub _ hg)
      have he : g ≠ g0 := by
        rintro rfl
        rw [hg0ns] at hold
        exact absurd hold (by simp)
      rw [upd_other _ _ he]
      exact hold
    · obtain ⟨u, hu, _⟩ := hWshape _ hg
      exact absurd hu (by simp)
  · intro t
    constructor
    · intro ht
      rcases List.mem_append.mp ht with ht | ht
      · exact (h.txnStartMem t).mp (hrestsub _ ht)
      · obtain ⟨u, hu, _⟩ := hWshape _ ht
        exact absurd hu (by simp)
    · intro ht
      have := (h.txnStartMem t).mpr ht
      rw [hq] at this
      rcases List.mem_cons.mp this with hc | hc
      · exact absurd hc (by simp)
      · exact List.mem_append.mpr (Or.inl hc)
  · intro t g ht
    by_cases he : g = g0
    · rcases h.awaitState t g ht with ⟨_, h2, _⟩ | ⟨hdead, _⟩
      · rw [he] at h2
        refine Or.inr ⟨by rw [he, upd_same], ?_⟩
        exact List.mem_append.mpr (Or.inr ((hWmem t).mpr h2))
      · rw [he, hg0ns] at hdead
        exact absurd hdead (by simp)
    · rcases h.awaitState t g ht with ⟨h1, h2, h3⟩ | ⟨h1, h2⟩
      · refine Or.inl ⟨by rw [upd_other _ _ he]; exact h1,
          by rw [upd_other _ _ he]; exact h2, ?_⟩
        intro hc
        rcases List.mem_append.mp hc with hc | hc
        · exact h3 (hrestsub _ hc)
        · obtain ⟨u, hu, hmem'⟩ := hWshape _ hc
          have : t = u := by injection hu
          subst this
          have := h.awaitersTxn g0 t hmem'
          rw [ht] at this
          rw [TStat.tAwaitLoop.injEq] at this
          exact he this
      · refine Or.inr ⟨by rw [upd_other _ _ he]; exact h1, ?_⟩
        rw [hq] at h2
        rcases List.mem_cons.mp h2 with hc | hc
        · exact absurd hc (by simp)
        · exact List.mem_append.mpr (Or.inl hc)
  · intro t ht
    rcases List.mem_append.mp ht with ht | ht
    · exact h.resumeMem t (hrestsub _ ht)
    · obtain ⟨u, hu, hmem'⟩ := hWshape _ ht
      have : t = u := by injection hu
      subst this
      exact Or.inl ⟨g0, h.awaitersTxn g0 t hmem'⟩
  · intro t ht
    rcases List.mem_append.mp ht with ht | ht
    · exact h.grantMem t (hrestsub _ ht)
    · obtain ⟨u, hu, _⟩ := hWshape _ ht
      exact absurd hu (by simp)
  · intro g t ht
    by_cases he : g = g0
    · subst he
      rw [upd_same] at ht
      exact absurd ht (by simp)
    · rw [upd_other _ _ he] at ht
      exact h.awaitersTxn g t ht
  · intro g hg
    have := h.freshGen g hg
    have he : g ≠ g0 := by
      rw [hg0cur]
      have := h.curGenLt
      omega
    rw [upd_other _ _ he, upd_other _ _ he]
    exact this
  · intro g hg
    by_cases he : g = g0
    · subst he
      rw [upd_same]
    · rw [upd_other _ _ he] at hg
      rw [upd_other _ _ he]
      exact h.deadAwaiters g hg
  · intro g
    by_cases he : g = g0
    · subst he
      rw [upd_same]
      exact List.nodup_nil
    · rw [upd_other _ _ he]
      exact h.nodupAwaiters g
  · intro g hg
    by_cases he : g = g0
    · subst he
      rw [upd_same] at hg
      exact absurd rfl hg
    · rw [upd_other _ _ he] at hg
      exact h.awaitersCancel g hg
  · intro hl hw
    obtain ⟨t, ht⟩ := h.waitersGrant hl hw
    rw [hq] at ht
    rcases List.mem_cons.mp ht with hc | hc
    · exact absurd hc (by simp)
    · exact ⟨t, List.mem_append.mpr (Or.inl hc)⟩
  · intro hl g
    by_cases he : g = g0
    · subst he
      rw [upd_same]
      simp
    · rw [upd_other _ _ he]
      exact h.lockedNoReading hl g
  · intro g hg
    have he : g ≠ g0 := by rw [hg0cur]; exact hg
    rw [upd_other _ _ he]
    exact h.staleDead g hg
  · rw [noBefore_append]
    refine ⟨noBefore_tail (hq ▸ h.noStartBeforeGrant), ?_, ?_⟩
    · refine noBefore_of_notQ ?_
      intro c hc
      obtain ⟨u, rfl, _⟩ := hWshape _ hc
      simp [isGrant]
    · intro c hc hpc
      obtain ⟨g', rfl⟩ := hpc
      exact absurd hc (hNoStartRest g')
  · rw [noBefore_append]
    refine ⟨noBefore_tail (hq ▸ h.noCritBeforeStart), ?_, ?_⟩
    · refine noBefore_of_notQ ?_
      intro c hc
      obtain ⟨u, rfl, _⟩ := hWshape _ hc
      simp [isLoopStart]
    · intro c _ _ x hx
      obtain ⟨u, rfl, _⟩ := hWshape _ hx
      simp [isLoopStart]
  · refine noBefore_of_notP ?_
    intro c hc
    rcases List.mem_append.mp hc with hc | hc
    · rintro ⟨g', rfl⟩
      exact hNoStartRest g' hc
    · obtain ⟨u, rfl, _⟩ := hWshape _ hc
      simp [isLoopStart]
  · intro t g _ _ g'
    by_cases he : g' = g0
    · subst he
      rw [upd_same]
      simp
    · rw [upd_other _ _ he]
      have : g' ≠ s.curGen := by rw [← hg0cur]; exact he
      rw [h.staleDead g' this]
      simp
  · intro t _ g'
    by_cases he : g' = g0
    · subst he
      rw [upd_same]
      simp
    · rw [upd_other _ _ he]
      have : g' ≠ s.curGen := by rw [← hg0cur]; exact he
      rw [h.staleDead g' this]
      simp

end LoopLock

namespace LoopLock

/-- Step case: the entry check passed and the loop task starts reading. -/
theorem inv_loopStartRead {s : Sys} (h : Inv s) (g0 : Nat) (rest : List Cb)
    (hq : s.queue = Cb.loopStart g0 :: rest)
    (hc : s.cancelReq g0 = false) (hl : s.locked = false) :
    Inv { s with queue := rest, loopStat := upd s.loopStat g0 .reading } := by
  have hmem : Cb.loopStart g0 ∈ s.queue := by rw [hq]; simp
  have hg0ns : s.loopStat g0 = .notStarted := (h.loopStartMem g0).mp hmem
  have hg0cur : g0 = s.curGen := h.pendingStart_curGen hmem
  have hnd := h.nodupQueue
  rw [hq] at hnd
  obtain ⟨hheadnot, hndrest⟩ := List.nodup_cons.mp hnd
  have hrestsub : ∀ x, x ∈ rest → x ∈ s.queue := by
    intro x hx; rw [hq]; simp [hx]
  have hNoStartRest : ∀ g', Cb.loopStart g' ∉ rest := by
    intro g' hg'
    have hcur := h.pendingStart_curGen (hrestsub _ hg')
    rw [← hg0cur] at hcur
    subst hcur
    exact hheadnot hg'
  have hA : s.loopAwaiters g0 = [] := by
    by_contra hne
    have := h.awaitersCancel g0 hne
    rw [hc] at this
    exact absurd this (by simp)
  have hsg := h.noStartBeforeGrant
  rw [hq] at hsg
  have hNoGrant : ∀ x ∈ rest, ¬ isGrant x := hsg.1 ⟨g0, rfl⟩
  have hsa := h.noStartBeforeAwait
  rw [hq] at hsa
  have hNoAwaitR : ∀ x ∈ rest, ¬ isAwaitResume s.txn x := hsa.1 ⟨g0, rfl⟩
  refine
    { nodupQueue := hndrest
      loopStartMem := ?_
      loopRunMem := ?_
      txnStartMem := ?_
      awaitState := ?_
      resumeMem := ?_
      grantMem := ?_
      waitersMem := h.waitersMem
      nodupWaiters := h.nodupWaiters
      awaitersTxn := h.awaitersTxn
      freshGen := ?_
      curGenLt := h.curGenLt
      freshTxn := h.freshTxn
      deadAwaiters := ?_
      nodupAwaiters := h.nodupAwaiters
      awaitersCancel := h.awaitersCancel
      awaitGenLt := h.awaitGenLt
      lockedIffCrit := h.lockedIffCrit
      critUnique := h.critUnique
      waitersGrant := ?_
      lockedNoReading := ?_
      staleDead := ?_
      noStartBeforeGrant := noBefore_tail (hq ▸ h.noStartBeforeGrant)
      noCritBeforeStart := noBefore_tail (hq ▸ h.noCritBeforeStart)
      noStartBeforeAwait := noBefore_tail (hq ▸ h.noStartBeforeAwait)
      awaitNoReading := ?_
      grantNoReading := ?_ }
  all_goals dsimp only
  · intro g
    constructor
    · intro hg
      exact absurd hg (hNoStartRest g)
    · intro hg
      by_cases he : g = g0
      · rw [he, upd_same] at hg
        exact absurd hg (by simp)
      · rw [upd_other _ _ he] at hg
        have hst : g ≠ s.curGen := by rw [← hg0cur]; exact he
        rw [h.staleDead g hst] at hg
        exact absurd hg (by simp)
  · intro g hg
    have hold := h.loopRunMem g (hrestsub _ hg)
    have he : g ≠ g0 := by
      rintro rfl
      rw [hg0ns] at hold
      exact absurd hold (by simp)
    rw [upd_other _ _ he]
    exact hold
  · intro t
    constructor
    · intro ht
      exact (h.txnStartMem t).mp (hrestsub _ ht)
    · intro ht
      have := (h.txnStartMem t).mpr ht
      rw [hq] at this
      rcases List.mem_cons.mp this with hc' | hc'
      · exact absurd hc' (by simp)
      · exact hc'
  · intro t g ht
    by_cases he : g = g0
    · rcases h.awaitState t g ht with ⟨_, h2, _⟩ | ⟨h1, _⟩
      · rw [he, hA] at h2
        exact absurd h2 (by simp)
      · rw [he, hg0ns] at h1
        exact absurd h1 (by simp)
    · rcases h.awaitState t g ht with ⟨h1, h2, h3⟩ | ⟨h1, h2⟩
      · exact Or.inl ⟨by rw [upd_other _ _ he]; exact h1, h2,
          fun hc' => h3 (hrestsub _ hc')⟩
      · refine Or.inr ⟨by rw [upd_other _ _ he]; exact h1, ?_⟩
        rw [hq] at h2
        rcases List.mem_cons.mp h2 with hc' | hc'
        · exact absurd hc' (by simp)
        · exact hc'
  · intro t ht
    exact h.resumeMem t (hrestsub _ ht)
  · intro t ht
    exact absurd ⟨t, rfl⟩ (hNoGrant _ ht)
  · intro g hg
    have he : g ≠ g0 := by
      rw [hg0cur]
      have := h.curGenLt
      omega
    rw [upd_other _ _ he]
    exact h.freshGen g hg
  · intro g hg
    by_cases he : g = g0
    · rw [he, upd_same] at hg
      exact absurd hg (by simp)
    · rw [upd_other _ _ he] at hg
      exact h.deadAwaiters g hg
  · intro hl' hw
    obtain ⟨t, ht⟩ := h.waitersGrant hl' hw
    rw [hq] at ht
    rcases List.mem_cons.mp ht with hc' | hc'
    · exact absurd hc' (by simp)
    · exact absurd ⟨t, rfl⟩ (hNoGrant _ hc')
  · intro hlt
    rw [hl] at hlt
    exact absurd hlt (by simp)
  · intro g hg
    have he : g ≠ g0 := by rw [hg0cur]; exact hg
    rw [upd_other _ _ he]
    exact h.staleDead g hg
  · intro t g htmem htawait
    exact absurd ⟨t, g, rfl, htawait⟩ (hNoAwaitR _ htmem)
  · intro t ht
    exact absurd ⟨t, rfl⟩ (hNoGrant _ ht)

/-- Step case: an uncancelled reading loop task handles a line and
blocks at its next read. -/
theorem inv_loopRunCont {s : Sys} (h : Inv s) (g0 : Nat) (rest : List Cb)
    (hq : s.queue = Cb.loopRun g0 :: rest)
    (_hc : s.cancelReq g0 = false) :
    Inv { s with queue := rest } := by
  have hnd := h.nodupQueue
  rw [hq] at hnd
  obtain ⟨hheadnot, hndrest⟩ := List.nodup_cons.mp hnd
  have hrestsub : ∀ x, x ∈ rest → x ∈ s.queue := by
    intro x hx; rw [hq]; simp [hx]
  refine
    { nodupQueue := hndrest
      loopStartMem := ?_
      loopRunMem := ?_
      txnStartMem := ?_
      awaitState := ?_
      resumeMem := ?_
      grantMem := ?_
      waitersMem := h.waitersMem
      nodupWaiters := h.nodupWaiters
      awaitersTxn := h.awaitersTxn
      freshGen := h.freshGen
      curGenLt := h.curGenLt
      freshTxn := h.freshTxn
      deadAwaiters := h.deadAwaiters
      nodupAwaiters := h.nodupAwaiters
      awaitersCancel := h.awaitersCancel
      awaitGenLt := h.awaitGenLt
      lockedIffCrit := h.lockedIffCrit
      critUnique := h.critUnique
      waitersGrant := ?_
      lockedNoReading := h.lockedNoReading
      staleDead := h.staleDead
      noStartBeforeGrant := noBefore_tail (hq ▸ h.noStartBeforeGrant)
      noCritBeforeStart := noBefore_tail (hq ▸ h.noCritBeforeStart)
      noStartBeforeAwait := noBefore_tail (hq ▸ h.noStartBeforeAwait)
      awaitNoReading := ?_
      grantNoReading := ?_ }
  all_goals dsimp only
  · intro g
    constructor
    · intro hg
      exact (h.loopStartMem g).mp (hrestsub _ hg)
    · intro hg
      have := (h.loopStartMem g).mpr hg
      rw [hq] at this
      rcases List.mem_cons.mp this with hc' | hc'
      · exact absurd hc' (by simp)
      · exact hc'
  · intro g hg
    exact h.loopRunMem g (hrestsub _ hg)
  · intro t
    constructor
    · intro ht
      exact (h.txnStartMem t).mp (hrestsub _ ht)
    · intro ht
      have := (h.txnStartMem t).mpr ht
      rw [hq] at this
      rcases List.mem_cons.mp this with hc' | hc'
      · exact absurd hc' (by simp)
      · exact hc'
  · intro t g ht
    rcases h.awaitState t g ht with ⟨h1, h2, h3⟩ | ⟨h1, h2⟩
    · exact Or.inl ⟨h1, h2, fun hc' => h3 (hrestsub _ hc')⟩
    · refine Or.inr ⟨h1, ?_⟩
      rw [hq] at h2
      rcases List.mem_cons.mp h2 with hc' | hc'
      · exact absurd hc' (by simp)
      · exact hc'
  · intro t ht
    exact h.resumeMem t (hrestsub _ ht)
  · intro t ht
    exact h.grantMem t (hrestsub _ ht)
  · intro hl hw
    obtain ⟨t, ht⟩ := h.waitersGrant hl hw
    rw [hq] at ht
    rcases List.mem_cons.mp ht with hc' | hc'
    · exact absurd hc' (by simp)
    · exact ⟨t, hc'⟩
  · intro t g htmem htawait
    exact h.awaitNoReading t g (hrestsub _ htmem) htawait
  · intro t ht
    exact h.grantNoReading t (hrestsub _ ht)

end LoopLock

namespace LoopLock

/-- Step case: a cancelled reading loop task receives the cancellation
at its read await and terminates; awaiting transactions are woken. -/
theorem inv_loopRunDead {s : Sys} (h : Inv s) (g0 : Nat) (rest : List Cb)
    (hq : s.queue = Cb.loopRun g0 :: rest)
    (_hc : s.cancelReq g0 = true) :
    Inv { s with queue := rest ++ (s.loopAwaiters g0).map Cb.txnResume,
                 loopStat := upd s.loopStat g0 .dead,
                 loopAwaiters := upd s.loopAwaiters g0 [] } := by
  have hmem : Cb.loopRun g0 ∈ s.queue := by rw [hq]; simp
  have hg0rd : s.loopStat g0 = .reading := h.loopRunMem g0 hmem
  have hg0cur : g0 = s.curGen := by
    by_contra hne
    have := h.staleDead g0 hne
    rw [hg0rd] at this
    exact absurd this (by simp)
  have hnd := h.nodupQueue
  rw [hq] at hnd
  obtain ⟨hheadnot, hndrest⟩ := List.nodup_cons.mp hnd
  have hrestsub : ∀ x, x ∈ rest → x ∈ s.queue := by
    intro x hx; rw [hq]; simp [hx]
  have hNoStartRest : ∀ g', Cb.loopStart g' ∉ rest := by
    intro g' hg'
    have hcur := h.pendingStart_curGen (hrestsub _ hg')
    rw [← hg0cur] at hcur
    have hns := (h.loopStartMem g').mp (hrestsub _ hg')
    rw [hcur, hg0rd] at hns
    exact absurd hns (by simp)
  have hWmem : ∀ u, Cb.txnResume u ∈ (s.loopAwaiters g0).map Cb.txnResume ↔
      u ∈ s.loopAwaiters g0 := by
    intro u
    simp only [List.mem_map]
    constructor
    · rintro ⟨a, ha, hau⟩
      have : a = u := by injection hau
      subst this
      exact ha
    · intro hu
      exact ⟨u, hu, rfl⟩
  have hWnores : ∀ u ∈ s.loopAwaiters g0, Cb.txnResume u ∉ s.queue := by
    intro u hu
    have htu := h.awaitersTxn g0 u hu
    rcases h.awaitState u g0 htu with ⟨_, _, h3⟩ | ⟨hdead, _⟩
    · exact h3
    · rw [hg0rd] at hdead
      exact absurd hdead (by simp)
  have hWshape : ∀ x ∈ (s.loopAwaiters g0).map Cb.txnResume,
      ∃ u, x = Cb.txnResume u ∧ u ∈ s.loopAwaiters g0 := by
    intro x hx
    rcases List.mem_map.mp hx with ⟨u, hu, rfl⟩
    exact ⟨u, rfl, hu⟩
  refine
    { nodupQueue := ?_
      loopStartMem := ?_
      loopRunMem := ?_
      txnStartMem := ?_
      awaitState := ?_
      resumeMem := ?_
      grantMem := ?_
      waitersMem := h.waitersMem
      nodupWaiters := h.nodupWaiters
      awaitersTxn := ?_
      freshGen := ?_
      curGenLt := h.curGenLt
      freshTxn := h.freshTxn
      deadAwaiters := ?_
      nodupAwaiters := ?_
      awaitersCancel := ?_
      awaitGenLt := h.awaitGenLt
      lockedIffCrit := h.lockedIffCrit
      critUnique := h.critUnique
      waitersGrant := ?_
      lockedNoReading := ?_
      staleDead := ?_
      noStartBeforeGrant := ?_
      noCritBeforeStart := ?_
      noStartBeforeAwait := ?_
      awaitNoReading := ?_
      grantNoReading := ?_ }
  all_goals dsimp only
  · refine List.Nodup.append hndrest
      (List.Nodup.map txnResume_injective (h.nodupAwaiters g0)) ?_
    intro x hx hx'
    obtain ⟨u, rfl, hu⟩ := hWshape x hx'
    exact hWnores u hu (hrestsub _ hx)
  · intro g
    constructor
    · intro hg
      rcases List.mem_append.mp hg with hg | hg
      · exact absurd hg (hNoStartRest g)
      · obtain ⟨u, hu, _⟩ := hWshape _ hg
        exact absurd hu (by simp)
    · intro hg
      by_cases he : g = g0
      · rw [he, upd_same] at hg
        exact absurd hg (by simp)
      · rw [upd_other _ _ he] at hg
        have hst : g ≠ s.curGen := by rw [← hg0cur]; exact he
        rw [h.staleDead g hst] at hg
        exact absurd hg (by simp)
  · intro g hg
    rcases List.mem_append.mp hg with hg1 | hg1
    · have hold := h.loopRunMem g (hrestsub _ hg1)
      have he : g ≠ g0 := fun hgg => hheadnot (hgg ▸ hg1)
      rw [upd_other _ _ he]
      exact hold
    · obtain ⟨u, hu, _⟩ := hWshape _ hg1
      exact absurd hu (by simp)
  · intro t
    constructor
    · intro ht
      rcases List.mem_append.mp ht with ht | ht
      · exact (h.txnStartMem t).mp (hrestsub _ ht)
      · obtain ⟨u, hu, _⟩ := hWshape _ ht
        exact absurd hu (by simp)
    · intro ht
      have := (h.txnStartMem t).mpr ht
      rw [hq] at this
      rcases List.mem_cons.mp this with hc' | hc'
      · exact absurd hc' (by simp)
      · exact List.mem_append.mpr (Or.inl hc')
  · intro t g ht
    by_cases he : g = g0
    · rcases h.awaitState t g ht with ⟨_, h2, _⟩ | ⟨hdead, _⟩
      · rw [he] at h2
        refine Or.inr ⟨by rw [he, upd_same], ?_⟩
        exact List.mem_append.mpr (Or.inr ((hWmem t).mpr h2))
      · rw [he, hg0rd] at hdead
        exact absurd hdead (by simp)
    · rcases h.awaitState t g ht with ⟨h1, h2, h3⟩ | ⟨h1, h2⟩
      · refine Or.inl ⟨by rw [upd_other _ _ he]; exact h1,
          by rw [upd_other _ _ he]; exact h2, ?_⟩
        intro hc'
        rcases List.mem_append.mp hc' with hc' | hc'
        · exact h3 (hrestsub _ hc')
        · obtain ⟨u, hu, hmem'⟩ := hWshape _ hc'
          have : t = u := by injection hu
          subst this
          have := h.awaitersTxn g0 t hmem'
          rw [ht] at this
          rw [TStat.tAwaitLoop.injEq] at this
          exact he this
      · refine Or.inr ⟨by rw [upd_other _ _ he]; exact h1, ?_⟩
        rw [hq] at h2
        rcases List.mem_cons.mp h2 with hc' | hc'
        · exact absurd hc' (by simp)
        · exact List.mem_append.mpr (Or.inl hc')
  · intro t ht
    rcases List.mem_append.mp ht with ht | ht
    · exact h.resumeMem t (hrestsub _ ht)
    · obtain ⟨u, hu, hmem'⟩ := hWshape _ ht
      have : t = u := by injection hu
      subst this
      exact Or.inl ⟨g0, h.awaitersTxn g0 t hmem'⟩
  · intro t ht
    rcases List.mem_append.mp ht with ht | ht
    · exact h.grantMem t (hrestsub _ ht)
    · obtain ⟨u, hu, _⟩ := hWshape _ ht
      exact absurd hu (by simp)
  · intro g t ht
    by_cases he : g = g0
    · rw [he, upd_same] at ht
      exact absurd ht (by simp)
    · rw [upd_other _ _ he] at ht
      exact h.awaitersTxn g t ht
  · intro g hg
    have := h.freshGen g hg
    have he : g ≠ g0 := by
      rw [hg0cur]
      have := h.curGenLt
      omega
    rw [upd_other _ _ he, upd_other _ _ he]
    exact this
  · intro g hg
    by_cases he : g = g0
    · rw [he, upd_same]
    · rw [upd_other _ _ he] at hg
      rw [upd_other _ _ he]
      exact h.deadAwaiters g hg
  · intro g
    by_cases he : g = g0
    · rw [he, upd_same]
      exact List.nodup_nil
    · rw [upd_other _ _ he]
      exact h.nodupAwaiters g
  · intro g hg
    by_cases he : g = g0
    · rw [he, upd_same] at hg
      exact absurd rfl hg
    · rw [upd_other _ _ he] at hg
      exact h.awaitersCancel g hg
  · intro hl hw
    obtain ⟨t, ht⟩ := h.waitersGrant hl hw
    rw [hq] at ht
    rcases List.mem_cons.mp ht with hc' | hc'
    · exact absurd hc' (by simp)
    · exact ⟨t, List.mem_append.mpr (Or.inl hc')⟩
  · intro hl g
    by_cases he : g = g0
    · rw [he, upd_same]
      simp
    · rw [upd_other _ _ he]
      exact h.lockedNoReading hl g
  · intro g hg
    have he : g ≠ g0 := by rw [hg0cur]; exact hg
    rw [upd_other _ _ he]
    exact h.staleDead g hg
  · rw [noBefore_append]
    refine ⟨noBefore_tail (hq ▸ h.noStartBeforeGrant), ?_, ?_⟩
    · refine noBefore_of_notQ ?_
      intro c hc
      obtain ⟨u, rfl, _⟩ := hWshape _ hc
      simp [isGrant]
    · intro c hc hpc
      obtain ⟨g', rfl⟩ := hpc
      exact absurd hc (hNoStartRest g')
  · rw [noBefore_append]
    refine ⟨noBefore_tail (hq ▸ h.noCritBeforeStart), ?_, ?_⟩
    · refine noBefore_of_notQ ?_
      intro c hc
      obtain ⟨u, rfl, _⟩ := hWshape _ hc
      simp [isLoopStart]
    · intro c _ _ x hx
      obtain ⟨u, rfl, _⟩ := hWshape _ hx
      simp [isLoopStart]
  · refine noBefore_of_notP ?_
    intro c hc
    rcases List.mem_append.mp hc with hc | hc
    · rintro ⟨g', rfl⟩
      exact hNoStartRest g' hc
    · obtain ⟨u, rfl, _⟩ := hWshape _ hc
      simp [isLoopStart]
  · intro t g _ _ g'
    by_cases he : g' = g0
    · rw [he, upd_same]
      simp
    · rw [upd_other _ _ he]
      have : g' ≠ s.curGen := by rw [← hg0cur]; exact he
      rw [h.staleDead g' this]
      simp
  · intro t _ g'
    by_cases he : g' = g0
    · rw [he, upd_same]
      simp
    · rw [upd_other _ _ he]
      have : g' ≠ s.curGen := by rw [← hg0cur]; exact he
      rw [h.staleDead g' this]
      simp

end LoopLock

namespace LoopLock

/-- Step case: a transaction's first run finds the loop task dead and
the lock free with no waiters, and takes the lock. -/
theorem inv_txnStartAcquire {s : Sys} (h : Inv s) (t0 : Nat) (rest : List Cb)
    (hq : s.queue = Cb.txnStart t0 :: rest)
    (hg : s.loopStat s.curGen = .dead)
    (hl : s.locked = false) (hw : s.waiters = []) :
    Inv { s with queue := rest, locked := true,
                 txn := upd s.txn t0 .tCritReading } := by
  have hmem : Cb.txnStart t0 ∈ s.queue := by rw [hq]; simp
  have ht0 : s.txn t0 = .tStart := (h.txnStartMem t0).mp hmem
  have hall := h.allDead hg
  have hnocrit := h.noCrit_of_unlocked hl
  have hnd := h.nodupQueue
  rw [hq] at hnd
  obtain ⟨hheadnot, hndrest⟩ := List.nodup_cons.mp hnd
  have hrestsub : ∀ x, x ∈ rest → x ∈ s.queue := by
    intro x hx; rw [hq]; simp [hx]
  have ht0lt : t0 < s.nextTxn := by
    by_contra hc
    have := h.freshTxn t0 (by omega)
    rw [ht0] at this
    exact absurd this (by simp)
  refine
    { nodupQueue := hndrest
      loopStartMem := ?_
      loopRunMem := ?_
      txnStartMem := ?_
      awaitState := ?_
      resumeMem := ?_
      grantMem := ?_
      waitersMem := ?_
      nodupWaiters := h.nodupWaiters
      awaitersTxn := ?_
      freshGen := h.freshGen
      curGenLt := h.curGenLt
      freshTxn := ?_
      deadAwaiters := h.deadAwaiters
      nodupAwaiters := h.nodupAwaiters
      awaitersCancel := h.awaitersCancel
      awaitGenLt := ?_
      lockedIffCrit := ?_
      critUnique := ?_
      waitersGrant := ?_
      lockedNoReading := ?_
      staleDead := h.staleDead
      noStartBeforeGrant := noBefore_tail (hq ▸ h.noStartBeforeGrant)
      noCritBeforeStart := ?_
      noStartBeforeAwait := ?_
      awaitNoReading := ?_
      grantNoReading := ?_ }
  all_goals dsimp only
  · intro g
    constructor
    · intro hgm
      have := (h.loopStartMem g).mp (hrestsub _ hgm)
      rw [hall g] at this
      exact absurd this (by simp)
    · intro hgm
      rw [hall g] at hgm
      exact absurd hgm (by simp)
  · intro g hgm
    have := h.loopRunMem g (hrestsub _ hgm)
    rw [hall g] at this
    exact absurd this (by simp)
  · intro t
    by_cases he : t = t0
    · subst he
      rw [upd_same]
      constructor
      · intro hc
        exact absurd hc hheadnot
      · intro hc
        exact absurd hc (by simp)
    · rw [upd_other _ _ he]
      constructor
      · intro hc
        exact (h.txnStartMem t).mp (hrestsub _ hc)
      · intro hc
        have := (h.txnStartMem t).mpr hc
        rw [hq] at this
        rcases List.mem_cons.mp this with hc' | hc'
        · rw [Cb.txnStart.injEq] at hc'
          exact absurd hc' he
        · exact hc'
  · intro t g ht
    by_cases he : t = t0
    · rw [he, upd_same] at ht
      exact absurd ht (by simp)
    · rw [upd_other _ _ he] at ht
      rcases h.awaitState t g ht with ⟨h1, h2, h3⟩ | ⟨h1, h2⟩
      · exact Or.inl ⟨h1, h2, fun hc => h3 (hrestsub _ hc)⟩
      · refine Or.inr ⟨h1, ?_⟩
        rw [hq] at h2
        rcases List.mem_cons.mp h2 with hc' | hc'
        · exact absurd hc' (by simp)
        · exact hc'
  · intro t ht
    have hold := h.resumeMem t (hrestsub _ ht)
    have he : t ≠ t0 := by
      rintro rfl
      rw [ht0] at hold
      rcases hold with ⟨g, hg'⟩ | hg' <;> simp at hg'
    rw [upd_other _ _ he]
    exact hold
  · intro t ht
    have := (h.grantMem t (hrestsub _ ht)).2.1
    rw [hw] at this
    exact absurd this (by simp)
  · intro t
    rw [hw]
    constructor
    · intro hc
      exact absurd hc (by simp)
    · intro hc
      by_cases he : t = t0
      · rw [he, upd_same] at hc
        exact absurd hc (by simp)
      · rw [upd_other _ _ he] at hc
        have := (h.waitersMem t).mpr hc
        rw [hw] at this
        exact absurd this (by simp)
  · intro g t ht
    have hold := h.awaitersTxn g t ht
    have he : t ≠ t0 := by
      rintro rfl
      rw [ht0] at hold
      exact absurd hold (by simp)
    rw [upd_other _ _ he]
    exact hold
  · intro t ht
    have he : t ≠ t0 := by omega
    rw [upd_other _ _ he]
    exact h.freshTxn t ht
  · intro t g ht
    by_cases he : t = t0
    · rw [he, upd_same] at ht
      exact absurd ht (by simp)
    · rw [upd_other _ _ he] at ht
      exact h.awaitGenLt t g ht
  · constructor
    · intro _
      exact ⟨t0, by rw [upd_same]⟩
    · intro _
      rfl
  · intro t u ht hu
    have he : t = t0 := by
      by_contra hc
      rw [upd_other _ _ hc] at ht
      exact absurd ht (hnocrit t)
    have he' : u = t0 := by
      by_contra hc
      rw [upd_other _ _ hc] at hu
      exact absurd hu (hnocrit u)
    rw [he, he']
  · intro hc
    exact absurd hc (by simp)
  · intro _ g
    rw [hall g]
    simp
  · refine noBefore_of_notP ?_
    rintro c hc ⟨t, rfl, ht⟩
    by_cases he : t = t0
    · have hres := h.resumeMem t (hrestsub _ hc)
      rw [he, ht0] at hres
      rcases hres with ⟨g, hg'⟩ | hg' <;> simp at hg'
    · rw [upd_other _ _ he] at ht
      exact hnocrit t ht
  · refine noBefore_mono (noBefore_tail (hq ▸ h.noStartBeforeAwait))
      (fun c _ => id) ?_
    rintro c hc ⟨t, g, rfl, ht⟩
    by_cases he : t = t0
    · rw [he, upd_same] at ht
      exact absurd ht (by simp)
    · rw [upd_other _ _ he] at ht
      exact ⟨t, g, rfl, ht⟩
  · intro t g _ _ g'
    rw [hall g']
    simp
  · intro t _ g
    rw [hall g]
    simp

/-- Step case: a transaction's first run finds the loop task dead but
the lock busy, and joins the waiter queue. -/
theorem inv_txnStartWait {s : Sys} (h : Inv s) (t0 : Nat) (rest : List Cb)
    (hq : s.queue = Cb.txnStart t0 :: rest)
    (hg : s.loopStat s.curGen = .dead)
    (hlw : s.locked = true ∨ s.waiters ≠ []) :
    Inv { s with queue := rest, waiters := s.waiters ++ [t0],
                 txn := upd s.txn t0 .tWaitLock } := by
  have hmem : Cb.txnStart t0 ∈ s.queue := by rw [hq]; simp
  have ht0 : s.txn t0 = .tStart := (h.txnStartMem t0).mp hmem
  have hall := h.allDead hg
  have hnd := h.nodupQueue
  rw [hq] at hnd
  obtain ⟨hheadnot, hndrest⟩ := List.nodup_cons.mp hnd
  have hrestsub : ∀ x, x ∈ rest → x ∈ s.queue := by
    intro x hx; rw [hq]; simp [hx]
  have ht0w : t0 ∉ s.waiters := by
    intro hc
    have := (h.waitersMem t0).mp hc
    rw [ht0] at this
    exact absurd this (by simp)
  refine
    { nodupQueue := hndrest
      loopStartMem := ?_
      loopRunMem := ?_
      txnStartMem := ?_
      awaitState := ?_
      resumeMem := ?_
      grantMem := ?_
      waitersMem := ?_
      nodupWaiters := ?_
      awaitersTxn := ?_
      freshGen := h.freshGen
      curGenLt := h.curGenLt
      freshTxn := ?_
      deadAwaiters := h.deadAwaiters
      nodupAwaiters := h.nodupAwaiters
      awaitersCancel := h.awaitersCancel
      awaitGenLt := ?_
      lockedIffCrit := ?_
      critUnique := ?_
      waitersGrant := ?_
      lockedNoReading := ?_
      staleDead := h.staleDead
      noStartBeforeGrant := noBefore_tail (hq ▸ h.noStartBeforeGrant)
      noCritBeforeStart := ?_
      noStartBeforeAwait := ?_
      awaitNoReading := ?_
      grantNoReading := ?_ }
  all_goals dsimp only
  · intro g
    constructor
    · intro hgm
      have := (h.loopStartMem g).mp (hrestsub _ hgm)
      rw [hall g] at this
      exact absurd this (by simp)
    · intro hgm
      rw [hall g] at hgm
      exact absurd hgm (by simp)
  · intro g hgm
    have := h.loopRunMem g (hrestsub _ hgm)
    rw [hall g] at this
    exact absurd this (by simp)
  · intro t
    by_cases he : t = t0
    · subst he
      rw [upd_same]
      constructor
      · intro hc
        exact absurd hc hheadnot
      · intro hc
        exact absurd hc (by simp)
    · rw [upd_other _ _ he]
      constructor
      · intro hc
        exact (h.txnStartMem t).mp (hrestsub _ hc)
      · intro hc
        have := (h.txnStartMem t).mpr hc
        rw [hq] at this
        rcases List.mem_cons.mp this with hc' | hc'
        · rw [Cb.txnStart.injEq] at hc'
          exact absurd hc' he
        · exact hc'
  · intro t g ht
    by_cases he : t = t0
    · rw [he, upd_same] at ht
      exact absurd ht (by simp)
    · rw [upd_other _ _ he] at ht
      rcases h.awaitState t g ht with ⟨h1, h2, h3⟩ | ⟨h1, h2⟩
      · exact Or.inl ⟨h1, h2, fun hc => h3 (hrestsub _ hc)⟩
      · refine Or.inr ⟨h1, ?_⟩
        rw [hq] at h2
        rcases List.mem_cons.mp h2 with hc' | hc'
        · exact absurd hc' (by simp)
        · exact hc'
  · intro t ht
    have hold := h.resumeMem t (hrestsub _ ht)
    have he : t ≠ t0 := by
      rintro rfl
      rw [ht0] at hold
      rcases hold with ⟨g, hg'⟩ | hg' <;> simp at hg'
    rw [upd_other _ _ he]
    exact hold
  · intro t ht
    obtain ⟨h1, h2, h3⟩ := h.grantMem t (hrestsub _ ht)
    have he : t ≠ t0 := by
      rintro rfl
      rw [ht0] at h1
      exact absurd h1 (by simp)
    refine ⟨by rw [upd_other _ _ he]; exact h1, ?_, h3⟩
    cases hws : s.waiters with
    | nil =>
      rw [hws] at h2
      exact absurd h2 (by simp)
    | cons w ws =>
      rw [hws] at h2
      simpa using h2
  · intro t
    by_cases he : t = t0
    · subst he
      rw [upd_same]
      simp
    · rw [upd_other _ _ he]
      have := h.waitersMem t
      simp only [List.mem_append, List.mem_singleton]
      constructor
      · rintro (hc | hc)
        · exact this.mp hc
        · exact absurd hc he
      · intro hc
        exact Or.inl (this.mpr hc)
  · simp only [List.nodup_append, List.nodup_singleton]
    exact ⟨h.nodupWaiters, trivial, by simpa using ht0w⟩
  · intro g t ht
    have hold := h.awaitersTxn g t ht
    have he : t ≠ t0 := by
      rintro rfl
      rw [ht0] at hold
      exact absurd hold (by simp)
    rw [upd_other _ _ he]
    exact hold
  · intro t ht
    have hlt : t0 < s.nextTxn := by
      by_contra hc
      have := h.freshTxn t0 (by omega)
      rw [ht0] at this
      exact absurd this (by simp)
    have he : t ≠ t0 := by omega
    rw [upd_other _ _ he]
    exact h.freshTxn t ht
  · intro t g ht
    by_cases he : t = t0
    · rw [he, upd_same] at ht
      exact absurd ht (by simp)
    · rw [upd_other _ _ he] at ht
      exact h.awaitGenLt t g ht
  · rw [h.lockedIffCrit]
    constructor
    · rintro ⟨t, ht⟩
      have he : t ≠ t0 := by
        rintro rfl
        rw [ht0] at ht
        exact absurd ht (by simp)
      exact ⟨t, by rw [upd_other _ _ he]; exact ht⟩
    · rintro ⟨t, ht⟩
      by_cases he : t = t0
      · rw [he, upd_same] at ht
        exact absurd ht (by simp)
      · rw [upd_other _ _ he] at ht
        exact ⟨t, ht⟩
  · intro t u ht hu
    by_cases he : t = t0
    · rw [he, upd_same] at ht
      exact absurd ht (by simp)
    · by_cases he' : u = t0
      · rw [he', upd_same] at hu
        exact absurd hu (by simp)
      · rw [upd_other _ _ he] at ht
        rw [upd_other _ _ he'] at hu
        exact h.critUnique t u ht hu
  · intro hl _
    rcases hlw with hlk | hww
    · rw [hlk] at hl
      exact absurd hl (by simp)
    · obtain ⟨t, ht⟩ := h.waitersGrant hl hww
      rw [hq] at ht
      rcases List.mem_cons.mp ht with hc' | hc'
      · exact absurd hc' (by simp)
      · exact ⟨t, hc'⟩
  · intro _ g
    rw [hall g]
    simp
  · refine noBefore_mono (noBefore_tail (hq ▸ h.noCritBeforeStart)) ?_ (fun c _ => id)
    rintro c hc ⟨t, rfl, ht⟩
    by_cases he : t = t0
    · rw [he, upd_same] at ht
      exact absurd ht (by simp)
    · rw [upd_other _ _ he] at ht
      exact ⟨t, rfl, ht⟩
  · refine noBefore_mono (noBefore_tail (hq ▸ h.noStartBeforeAwait))
      (fun c _ => id) ?_
    rintro c hc ⟨t, g, rfl, ht⟩
    by_cases he : t = t0
    · rw [he, upd_same] at ht
      exact absurd ht (by simp)
    · rw [upd_other _ _ he] at ht
      exact ⟨t, g, rfl, ht⟩
  · intro t g _ _ g'
    rw [hall g']
    simp
  · intro t _ g
    rw [hall g]
    simp

end LoopLock

namespace LoopLock

/-- Step case: a transaction's first run finds the loop task alive,
cancels it, and suspends awaiting its termination. -/
theorem inv_txnStartCancel {s : Sys} (h : Inv s) (t0 : Nat) (rest : List Cb)
    (hq : s.queue = Cb.txnStart t0 :: rest)
    (hg : s.loopStat s.curGen ≠ .dead) :
    Inv { s with
      queue := rest ++
        (if s.loopStat s.curGen = .reading ∧ Cb.loopRun s.curGen ∉ rest
         then [Cb.loopRun s.curGen] else []),
      cancelReq := upd s.cancelReq s.curGen true,
      loopAwaiters := upd s.loopAwaiters s.curGen
        (s.loopAwaiters s.curGen ++ [t0]),
      txn := upd s.txn t0 (.tAwaitLoop s.curGen) } := by
  have hmem : Cb.txnStart t0 ∈ s.queue := by rw [hq]; simp
  have ht0 : s.txn t0 = .tStart := (h.txnStartMem t0).mp hmem
  have hnd := h.nodupQueue
  rw [hq] at hnd
  obtain ⟨hheadnot, hndrest⟩ := List.nodup_cons.mp hnd
  have hrestsub : ∀ x, x ∈ rest → x ∈ s.queue := by
    intro x hx; rw [hq]; simp [hx]
  have ht0A : ∀ g, t0 ∉ s.loopAwaiters g := by
    intro g hc
    have := h.awaitersTxn g t0 hc
    rw [ht0] at this
    exact absurd this (by simp)
  have ht0res : Cb.txnResume t0 ∉ s.queue := by
    intro hc
    have := h.resumeMem t0 hc
    rw [ht0] at this
    rcases this with ⟨g, hg'⟩ | hg' <;> simp at hg'
  have hPmem : ∀ x ∈ (if s.loopStat s.curGen = .reading ∧ Cb.loopRun s.curGen ∉ rest
      then [Cb.loopRun s.curGen] else []),
      x = Cb.loopRun s.curGen ∧ s.loopStat s.curGen = .reading ∧
        Cb.loopRun s.curGen ∉ rest := by
    intro x hx
    by_cases hcond : s.loopStat s.curGen = .reading ∧ Cb.loopRun s.curGen ∉ rest
    · rw [if_pos hcond] at hx
      rw [List.mem_singleton] at hx
      exact ⟨hx, hcond⟩
    · rw [if_neg hcond] at hx
      exact absurd hx (by simp)
  have ht0lt : t0 < s.nextTxn := by
    by_contra hc
    have := h.freshTxn t0 (by omega)
    rw [ht0] at this
    exact absurd this (by simp)
  refine
    { nodupQueue := ?_
      loopStartMem := ?_
      loopRunMem := ?_
      txnStartMem := ?_
      awaitState := ?_
      resumeMem := ?_
      grantMem := ?_
      waitersMem := ?_
      nodupWaiters := h.nodupWaiters
      awaitersTxn := ?_
      freshGen := ?_
      curGenLt := h.curGenLt
      freshTxn := ?_
      deadAwaiters := ?_
      nodupAwaiters := ?_
      awaitersCancel := ?_
      awaitGenLt := ?_
      lockedIffCrit := ?_
      critUnique := ?_
      waitersGrant := ?_
      lockedNoReading := ?_
      staleDead := h.staleDead
      noStartBeforeGrant := ?_
      noCritBeforeStart := ?_
      noStartBeforeAwait := ?_
      awaitNoReading := ?_
      grantNoReading := ?_ }
  all_goals dsimp only
  · by_cases hcond : s.loopStat s.curGen = .reading ∧ Cb.loopRun s.curGen ∉ rest
    · rw [if_pos hcond]
      simp only [List.nodup_append, List.nodup_singleton]
      exact ⟨hndrest, trivial, by simpa using hcond.2⟩
    · rw [if_neg hcond]
      simpa using hndrest
  · intro g
    constructor
    · intro hgm
      rcases List.mem_append.mp hgm with hgm | hgm
      · exact (h.loopStartMem g).mp (hrestsub _ hgm)
      · obtain ⟨hx, _⟩ := hPmem _ hgm
        exact absurd hx (by simp)
    · intro hgm
      have := (h.loopStartMem g).mpr hgm
      rw [hq] at this
      rcases List.mem_cons.mp this with hc' | hc'
      · exact absurd hc' (by simp)
      · exact List.mem_append.mpr (Or.inl hc')
  · intro g hgm
    rcases List.mem_append.mp hgm with hgm | hgm
    · exact h.loopRunMem g (hrestsub _ hgm)
    · obtain ⟨hx, hrd, _⟩ := hPmem _ hgm
      have : g = s.curGen := by injection hx
      rw [this]
      exact hrd
  · intro t
    by_cases he : t = t0
    · rw [he, upd_same]
      constructor
      · intro hc
        rcases List.mem_append.mp hc with hc | hc
        · rw [← he] at hc
          rw [he] at hc
          exact absurd hc hheadnot
        · obtain ⟨hx, _⟩ := hPmem _ hc
          exact absurd hx (by simp)
      · intro hc
        exact absurd hc (by simp)
    · rw [upd_other _ _ he]
      constructor
      · intro hc
        rcases List.mem_append.mp hc with hc | hc
        · exact (h.txnStartMem t).mp (hrestsub _ hc)
        · obtain ⟨hx, _⟩ := hPmem _ hc
          exact absurd hx (by simp)
      · intro hc
        have := (h.txnStartMem t).mpr hc
        rw [hq] at this
        rcases List.mem_cons.mp this with hc' | hc'
        · rw [Cb.txnStart.injEq] at hc'
          exact absurd hc' he
        · exact List.mem_append.mpr (Or.inl hc')
  · intro t g ht
    by_cases he : t = t0
    · rw [he, upd_same] at ht
      rw [TStat.tAwaitLoop.injEq] at ht
      subst ht
      refine Or.inl ⟨hg, ?_, ?_⟩
      · rw [upd_same]
        simp [he]
      · intro hc
        rcases List.mem_append.mp hc with hc | hc
        · rw [he] at hc
          exact ht0res (hrestsub _ hc)
        · obtain ⟨hx, _⟩ := hPmem _ hc
          exact absurd hx (by simp)
    · rw [upd_other _ _ he] at ht
      rcases h.awaitState t g ht with ⟨h1, h2, h3⟩ | ⟨h1, h2⟩
      · refine Or.inl ⟨h1, ?_, ?_⟩
        · by_cases hgc : g = s.curGen
          · rw [hgc, upd_same]
            rw [hgc] at h2
            simp [h2]
          · rw [upd_other _ _ hgc]
            exact h2
        · intro hc
          rcases List.mem_append.mp hc with hc | hc
          · exact h3 (hrestsub _ hc)
          · obtain ⟨hx, _⟩ := hPmem _ hc
            exact absurd hx (by simp)
      · refine Or.inr ⟨h1, ?_⟩
        rw [hq] at h2
        rcases List.mem_cons.mp h2 with hc' | hc'
        · exact absurd hc' (by simp)
        · exact List.mem_append.mpr (Or.inl hc')
  · intro t ht
    rcases List.mem_append.mp ht with ht | ht
    · have hold := h.resumeMem t (hrestsub _ ht)
      have he : t ≠ t0 := by
        rintro rfl
        exact ht0res (hrestsub _ ht)
      rw [upd_other _ _ he]
      exact hold
    · obtain ⟨hx, _⟩ := hPmem _ ht
      exact absurd hx (by simp)
  · intro t ht
    rcases List.mem_append.mp ht with ht | ht
    · obtain ⟨h1, h2, h3⟩ := h.grantMem t (hrestsub _ ht)
      have he : t ≠ t0 := by
        rintro rfl
        rw [ht0] at h1
        exact absurd h1 (by simp)
      exact ⟨by rw [upd_other _ _ he]; exact h1, h2, h3⟩
    · obtain ⟨hx, _⟩ := hPmem _ ht
      exact absurd hx (by simp)
  · intro t
    by_cases he : t = t0
    · rw [he, upd_same]
      constructor
      · intro hc
        have := (h.waitersMem t0).mp hc
        rw [ht0] at this
        exact absurd this (by simp)
      · intro hc
        exact absurd hc (by simp)
    · rw [upd_other _ _ he]
      exact h.waitersMem t
  · intro g t ht
    by_cases hgc : g = s.curGen
    · rw [hgc, upd_same] at ht
      rw [List.mem_append, List.mem_singleton] at ht
      rcases ht with ht | ht
      · have := h.awaitersTxn s.curGen t ht
        have he : t ≠ t0 := by
          rintro rfl
          exact ht0A _ ht
        rw [upd_other _ _ he, hgc]
        exact this
      · rw [ht, hgc, upd_same]
    · rw [upd_other _ _ hgc] at ht
      have := h.awaitersTxn g t ht
      have he : t ≠ t0 := by
        rintro rfl
        exact ht0A _ ht
      rw [upd_other _ _ he]
      exact this
  · intro g hge
    have hgc : g ≠ s.curGen := by
      have := h.curGenLt
      omega
    rw [upd_other _ _ hgc, upd_other _ _ hgc]
    exact h.freshGen g hge
  · intro t ht
    have he : t ≠ t0 := by omega
    rw [upd_other _ _ he]
    exact h.freshTxn t ht
  · intro g hgd
    by_cases hgc : g = s.curGen
    · rw [hgc] at hgd
      exact absurd hgd hg
    · rw [upd_other _ _ hgc]
      exact h.deadAwaiters g hgd
  · intro g
    by_cases hgc : g = s.curGen
    · rw [hgc, upd_same]
      simp only [List.nodup_append, List.nodup_singleton]
      exact ⟨h.nodupAwaiters s.curGen, trivial, by simpa using ht0A s.curGen⟩
    · rw [upd_other _ _ hgc]
      exact h.nodupAwaiters g
  · intro g hgne
    by_cases hgc : g = s.curGen
    · rw [hgc, upd_same]
    · rw [upd_other _ _ hgc] at hgne
      rw [upd_other _ _ hgc]
      exact h.awaitersCancel g hgne
  · intro t g ht
    by_cases he : t = t0
    · rw [he, upd_same] at ht
      rw [TStat.tAwaitLoop.injEq] at ht
      subst ht
      exact h.curGenLt
    · rw [upd_other _ _ he] at ht
      exact h.awaitGenLt t g ht
  · rw [h.lockedIffCrit]
    constructor
    · rintro ⟨t, ht⟩
      have he : t ≠ t0 := by
        rintro rfl
        rw [ht0] at ht
        exact absurd ht (by simp)
      exact ⟨t, by rw [upd_other _ _ he]; exact ht⟩
    · rintro ⟨t, ht⟩
      by_cases he : t = t0
      · rw [he, upd_same] at ht
        exact absurd ht (by simp)
      · rw [upd_other _ _ he] at ht
        exact ⟨t, ht⟩
  · intro t u ht hu
    by_cases he : t = t0
    · rw [he, upd_same] at ht
      exact absurd ht (by simp)
    · by_cases he' : u = t0
      · rw [he', upd_same] at hu
        exact absurd hu (by simp)
      · rw [upd_other _ _ he] at ht
        rw [upd_other _ _ he'] at hu
        exact h.critUnique t u ht hu
  · intro hl hw
    obtain ⟨t, ht⟩ := h.waitersGrant hl hw
    rw [hq] at ht
    rcases List.mem_cons.mp ht with hc' | hc'
    · exact absurd hc' (by simp)
    · exact ⟨t, List.mem_append.mpr (Or.inl hc')⟩
  · intro hl g
    exact h.lockedNoReading hl g
  · rw [noBefore_append]
    refine ⟨noBefore_tail (hq ▸ h.noStartBeforeGrant), ?_, ?_⟩
    · refine noBefore_of_notQ ?_
      intro c hc
      obtain ⟨hx, _⟩ := hPmem _ hc
      subst hx
      simp [isGrant]
    · intro c _ _ x hx
      obtain ⟨hx', _⟩ := hPmem _ hx
      subst hx'
      simp [isGrant]
  · rw [noBefore_append]
    refine ⟨?_, ?_, ?_⟩
    · refine noBefore_mono (noBefore_tail (hq ▸ h.noCritBeforeStart)) ?_ (fun c _ => id)
      rintro c hc ⟨t, rfl, ht⟩
      by_cases he : t = t0
      · rw [he, upd_same] at ht
        exact absurd ht (by simp)
      · rw [upd_other _ _ he] at ht
        exact ⟨t, rfl, ht⟩
    · refine noBefore_of_notQ ?_
      intro c hc
      obtain ⟨hx, _⟩ := hPmem _ hc
      subst hx
      simp [isLoopStart]
    · intro c _ _ x hx
      obtain ⟨hx', _⟩ := hPmem _ hx
      subst hx'
      simp [isLoopStart]
  · rw [noBefore_append]
    refine ⟨?_, ?_, ?_⟩
    · refine noBefore_mono (noBefore_tail (hq ▸ h.noStartBeforeAwait))
        (fun c _ => id) ?_
      rintro c hc ⟨t, g, rfl, ht⟩
      by_cases he : t = t0
      · exfalso
        rw [he] at hc
        exact ht0res (hrestsub _ hc)
      · rw [upd_other _ _ he] at ht
        exact ⟨t, g, rfl, ht⟩
    · refine noBefore_of_notP ?_
      intro c hc
      obtain ⟨hx, _⟩ := hPmem _ hc
      subst hx
      simp [isLoopStart]
    · intro c hc hpc x hx
      obtain ⟨hx', _⟩ := hPmem _ hx
      subst hx'
      rintro ⟨t, g, hteq, _⟩
      exact absurd hteq (by simp)
  · intro t g ht hta g'
    rcases List.mem_append.mp ht with ht | ht
    · have he : t ≠ t0 := by
        rintro rfl
        exact ht0res (hrestsub _ ht)
      rw [upd_other _ _ he] at hta
      exact h.awaitNoReading t g (hrestsub _ ht) hta g'
    · obtain ⟨hx, _⟩ := hPmem _ ht
      exact absurd hx (by simp)
  · intro t ht g
    rcases List.mem_append.mp ht with ht | ht
    · exact h.grantNoReading t (hrestsub _ ht) g
    · obtain ⟨hx, _⟩ := hPmem _ ht
      exact absurd hx (by simp)

end LoopLock

namespace LoopLock

/-- Step case: a transaction resumes from its loop-task await with the
lock free and no waiters, and takes the lock. -/
theorem inv_txnResumeAcquire {s : Sys} (h : Inv s) (t0 g1 : Nat) (rest : List Cb)
    (hq : s.queue = Cb.txnResume t0 :: rest)
    (ht0 : s.txn t0 = .tAwaitLoop g1)
    (hl : s.locked = false) (hw : s.waiters = []) :
    Inv { s with queue := rest, locked := true,
                 txn := upd s.txn t0 .tCritReading } := by
  have hmem : Cb.txnResume t0 ∈ s.queue := by rw [hq]; simp
  have hNoRead : ∀ g', s.loopStat g' ≠ .reading := h.awaitNoReading t0 g1 hmem ht0
  have hnocrit := h.noCrit_of_unlocked hl
  have hnd := h.nodupQueue
  rw [hq] at hnd
  obtain ⟨hheadnot, hndrest⟩ := List.nodup_cons.mp hnd
  have hrestsub : ∀ x, x ∈ rest → x ∈ s.queue := by
    intro x hx; rw [hq]; simp [hx]
  have ht0lt : t0 < s.nextTxn := by
    by_contra hc
    have := h.freshTxn t0 (by omega)
    rw [ht0] at this
    exact absurd this (by simp)
  refine
    { nodupQueue := hndrest
      loopStartMem := ?_
      loopRunMem := ?_
      txnStartMem := ?_
      awaitState := ?_
      resumeMem := ?_
      grantMem := ?_
      waitersMem := ?_
      nodupWaiters := h.nodupWaiters
      awaitersTxn := ?_
      freshGen := h.freshGen
      curGenLt := h.curGenLt
      freshTxn := ?_
      deadAwaiters := h.deadAwaiters
      nodupAwaiters := h.nodupAwaiters
      awaitersCancel := h.awaitersCancel
      awaitGenLt := ?_
      lockedIffCrit := ?_
      critUnique := ?_
      waitersGrant := ?_
      lockedNoReading := ?_
      staleDead := h.staleDead
      noStartBeforeGrant := noBefore_tail (hq ▸ h.noStartBeforeGrant)
      noCritBeforeStart := ?_
      noStartBeforeAwait := ?_
      awaitNoReading := ?_
      grantNoReading := ?_ }
  all_goals dsimp only
  · intro g
    constructor
    · intro hgm
      exact (h.loopStartMem g).mp (hrestsub _ hgm)
    · intro hgm
      have := (h.loopStartMem g).mpr hgm
      rw [hq] at this
      rcases List.mem_cons.mp this with hc' | hc'
      · exact absurd hc' (by simp)
      · exact hc'
  · intro g hgm
    have := h.loopRunMem g (hrestsub _ hgm)
    exact absurd this (hNoRead g)
  · intro t
    by_cases he : t = t0
    · rw [he, upd_same]
      constructor
      · intro hc
        have := (h.txnStartMem t0).mp (hrestsub _ hc)
        rw [ht0] at this
        exact absurd this (by simp)
      · intro hc
        exact absurd hc (by simp)
    · rw [upd_other _ _ he]
      constructor
      · intro hc
        exact (h.txnStartMem t).mp (hrestsub _ hc)
      · intro hc
        have := (h.txnStartMem t).mpr hc
        rw [hq] at this
        rcases List.mem_cons.mp this with hc' | hc'
        · exact absurd hc' (by simp)
        · exact hc'
  · intro t g ht
    by_cases he : t = t0
    · rw [he, upd_same] at ht
      exact absurd ht (by simp)
    · rw [upd_other _ _ he] at ht
      rcases h.awaitState t g ht with ⟨h1, h2, h3⟩ | ⟨h1, h2⟩
      · exact Or.inl ⟨h1, h2, fun hc => h3 (hrestsub _ hc)⟩
      · refine Or.inr ⟨h1, ?_⟩
        rw [hq] at h2
        rcases List.mem_cons.mp h2 with hc' | hc'
        · rw [Cb.txnResume.injEq] at hc'
          exact absurd hc' he
        · exact hc'
  · intro t ht
    have he : t ≠ t0 := by
      rintro rfl
      exact hheadnot ht
    rw [upd_other _ _ he]
    exact h.resumeMem t (hrestsub _ ht)
  · intro t ht
    have := (h.grantMem t (hrestsub _ ht)).2.1
    rw [hw] at this
    exact absurd this (by simp)
  · intro t
    rw [hw]
    constructor
    · intro hc
      exact absurd hc (by simp)
    · intro hc
      by_cases he : t = t0
      · rw [he, upd_same] at hc
        exact absurd hc (by simp)
      · rw [upd_other _ _ he] at hc
        have := (h.waitersMem t).mpr hc
        rw [hw] at this
        exact absurd this (by simp)
  · intro g t ht
    have hold := h.awaitersTxn g t ht
    have he : t ≠ t0 := by
      intro hrfl
      rcases h.awaitState t g hold with ⟨_, _, h3⟩ | ⟨hdead, _⟩
      · exact h3 (by rw [hrfl]; exact hmem)
      · rw [h.deadAwaiters g hdead] at ht
        exact absurd ht (by simp)
    rw [upd_other _ _ he]
    exact hold
  · intro t ht
    have he : t ≠ t0 := by omega
    rw [upd_other _ _ he]
    exact h.freshTxn t ht
  · intro t g ht
    by_cases he : t = t0
    · rw [he, upd_same] at ht
      exact absurd ht (by simp)
    · rw [upd_other _ _ he] at ht
      exact h.awaitGenLt t g ht
  · constructor
    · intro _
      exact ⟨t0, by rw [upd_same]⟩
    · intro _
      rfl
  · intro t u ht hu
    have he : t = t0 := by
      by_contra hc
      rw [upd_other _ _ hc] at ht
      exact absurd ht (hnocrit t)
    have he' : u = t0 := by
      by_contra hc
      rw [upd_other _ _ hc] at hu
      exact absurd hu (hnocrit u)
    rw [he, he']
  · intro hc
    exact absurd hc (by simp)
  · intro _ g
    exact hNoRead g
  · refine noBefore_of_notP ?_
    rintro c hc ⟨t, rfl, ht⟩
    by_cases he : t = t0
    · rw [he] at hc
      exact hheadnot hc
    · rw [upd_other _ _ he] at ht
      exact hnocrit t ht
  · refine noBefore_mono (noBefore_tail (hq ▸ h.noStartBeforeAwait))
      (fun c _ => id) ?_
    rintro c hc ⟨t, g, rfl, ht⟩
    by_cases he : t = t0
    · rw [he, upd_same] at ht
      exact absurd ht (by simp)
    · rw [upd_other _ _ he] at ht
      exact ⟨t, g, rfl, ht⟩
  · intro t g ht hta g'
    have he : t ≠ t0 := by
      rintro rfl
      exact hheadnot ht
    rw [upd_other _ _ he] at hta
    exact h.awaitNoReading t g (hrestsub _ ht) hta g'
  · intro t ht g
    exact h.grantNoReading t (hrestsub _ ht) g

/-- Step case: a transaction resumes from its loop-task await with the
lock busy, and joins the waiter queue. -/
theorem inv_txnResumeWait {s : Sys} (h : Inv s) (t0 g1 : Nat) (rest : List Cb)
    (hq : s.queue = Cb.txnResume t0 :: rest)
    (ht0 : s.txn t0 = .tAwaitLoop g1)
    (hlw : s.locked = true ∨ s.waiters ≠ []) :
    Inv { s with queue := rest, waiters := s.waiters ++ [t0],
                 txn := upd s.txn t0 .tWaitLock } := by
  have hmem : Cb.txnResume t0 ∈ s.queue := by rw [hq]; simp
  have hnd := h.nodupQueue
  rw [hq] at hnd
  obtain ⟨hheadnot, hndrest⟩ := List.nodup_cons.mp hnd
  have hrestsub : ∀ x, x ∈ rest → x ∈ s.queue := by
    intro x hx; rw [hq]; simp [hx]
  have ht0w : t0 ∉ s.waiters := by
    intro hc
    have := (h.waitersMem t0).mp hc
    rw [ht0] at this
    exact absurd this (by simp)
  have ht0lt : t0 < s.nextTxn := by
    by_contra hc
    have := h.freshTxn t0 (by omega)
    rw [ht0] at this
    exact absurd this (by simp)
  refine
    { nodupQueue := hndrest
      loopStartMem := ?_
      loopRunMem := ?_
      txnStartMem := ?_
      awaitState := ?_
      resumeMem := ?_
      grantMem := ?_
      waitersMem := ?_
      nodupWaiters := ?_
      awaitersTxn := ?_
      freshGen := h.freshGen
      curGenLt := h.curGenLt
      freshTxn := ?_
      deadAwaiters := h.deadAwaiters
      nodupAwaiters := h.nodupAwaiters
      awaitersCancel := h.awaitersCancel
      awaitGenLt := ?_
      lockedIffCrit := ?_
      critUnique := ?_
      waitersGrant := ?_
      lockedNoReading := h.lockedNoReading
      staleDead := h.staleDead
      noStartBeforeGrant := noBefore_tail (hq ▸ h.noStartBeforeGrant)
      noCritBeforeStart := ?_
      noStartBeforeAwait := ?_
      awaitNoReading := ?_
      grantNoReading := ?_ }
  all_goals dsimp only
  · intro g
    constructor
    · intro hgm
      exact (h.loopStartMem g).mp (hrestsub _ hgm)
    · intro hgm
      have := (h.loopStartMem g).mpr hgm
      rw [hq] at this
      rcases List.mem_cons.mp this with hc' | hc'
      · exact absurd hc' (by simp)
      · exact hc'
  · intro g hgm
    exact h.loopRunMem g (hrestsub _ hgm)
  · intro t
    by_cases he : t = t0
    · rw [he, upd_same]
      constructor
      · intro hc
        have := (h.txnStartMem t0).mp (hrestsub _ hc)
        rw [ht0] at this
        exact absurd this (by simp)
      · intro hc
        exact absurd hc (by simp)
    · rw [upd_other _ _ he]
      constructor
      · intro hc
        exact (h.txnStartMem t).mp (hrestsub _ hc)
      · intro hc
        have := (h.txnStartMem t).mpr hc
        rw [hq] at this
        rcases List.mem_cons.mp this with hc' | hc'
        · exact absurd hc' (by simp)
        · exact hc'
  · intro t g ht
    by_cases he : t = t0
    · rw [he, upd_same] at ht
      exact absurd ht (by simp)
    · rw [upd_other _ _ he] at ht
      rcases h.awaitState t g ht with ⟨h1, h2, h3⟩ | ⟨h1, h2⟩
      · exact Or.inl ⟨h1, h2, fun hc => h3 (hrestsub _ hc)⟩
      · refine Or.inr ⟨h1, ?_⟩
        rw [hq] at h2
        rcases List.mem_cons.mp h2 with hc' | hc'
        · rw [Cb.txnResume.injEq] at hc'
          exact absurd hc' he
        · exact hc'
  · intro t ht
    have he : t ≠ t0 := by
      rintro rfl
      exact hheadnot ht
    rw [upd_other _ _ he]
    exact h.resumeMem t (hrestsub _ ht)
  · intro t ht
    obtain ⟨h1, h2, h3⟩ := h.grantMem t (hrestsub _ ht)
    have he : t ≠ t0 := by
      rintro rfl
      rw [ht0] at h1
      exact absurd h1 (by simp)
    refine ⟨by rw [upd_other _ _ he]; exact h1, ?_, h3⟩
    cases hws : s.waiters with
    | nil =>
      rw [hws] at h2
      exact absurd h2 (by simp)
    | cons w ws =>
      rw [hws] at h2
      simpa using h2
  · intro t
    by_cases he : t = t0
    · rw [he, upd_same]
      simp
    · rw [upd_other _ _ he]
      have := h.waitersMem t
      simp only [List.mem_append, List.mem_singleton]
      constructor
      · rintro (hc | hc)
        · exact this.mp hc
        · exact absurd hc he
      · intro hc
        exact Or.inl (this.mpr hc)
  · simp only [List.nodup_append, List.nodup_singleton]
    exact ⟨h.nodupWaiters, trivial, by simpa using ht0w⟩
  · intro g t ht
    have hold := h.awaitersTxn g t ht
    have he : t ≠ t0 := by
      intro hrfl
      rcases h.awaitState t g hold with ⟨_, _, h3⟩ | ⟨hdead, _⟩
      · exact h3 (by rw [hrfl]; exact hmem)
      · rw [h.deadAwaiters g hdead] at ht
        exact absurd ht (by simp)
    rw [upd_other _ _ he]
    exact hold
  · intro t ht
    have he : t ≠ t0 := by omega
    rw [upd_other _ _ he]
    exact h.freshTxn t ht
  · intro t g ht
    by_cases he : t = t0
    · rw [he, upd_same] at ht
      exact absurd ht (by simp)
    · rw [upd_other _ _ he] at ht
      exact h.awaitGenLt t g ht
  · rw [h.lockedIffCrit]
    constructor
    · rintro ⟨t, ht⟩
      have he : t ≠ t0 := by
        rintro rfl
        rw [ht0] at ht
        exact absurd ht (by simp)
      exact ⟨t, by rw [upd_other _ _ he]; exact ht⟩
    · rintro ⟨t, ht⟩
      by_cases he : t = t0
      · rw [he, upd_same] at ht
        exact absurd ht (by simp)
      · rw [upd_other _ _ he] at ht
        exact ⟨t, ht⟩
  · intro t u ht hu
    by_cases he : t = t0
    · rw [he, upd_same] at ht
      exact absurd ht (by simp)
    · by_cases he' : u = t0
      · rw [he', upd_same] at hu
        exact absurd hu (by simp)
      · rw [upd_other _ _ he] at ht
        rw [upd_other _ _ he'] at hu
        exact h.critUnique t u ht hu
  · intro hl _
    rcases hlw with hlk | hww
    · rw [hlk] at hl
      exact absurd hl (by simp)
    · obtain ⟨t, ht⟩ := h.waitersGrant hl hww
      rw [hq] at ht
      rcases List.mem_cons.mp ht with hc' | hc'
      · exact absurd hc' (by simp)
      · exact ⟨t, hc'⟩
  · refine noBefore_mono (noBefore_tail (hq ▸ h.noCritBeforeStart)) ?_ (fun c _ => id)
    rintro c hc ⟨t, rfl, ht⟩
    by_cases he : t = t0
    · rw [he, upd_same] at ht
      exact absurd ht (by simp)
    · rw [upd_other _ _ he] at ht
      exact ⟨t, rfl, ht⟩
  · refine noBefore_mono (noBefore_tail (hq ▸ h.noStartBeforeAwait))
      (fun c _ => id) ?_
    rintro c hc ⟨t, g, rfl, ht⟩
    by_cases he : t = t0
    · rw [he, upd_same] at ht
      exact absurd ht (by simp)
    · rw [upd_other _ _ he] at ht
      exact ⟨t, g, rfl, ht⟩
  · intro t g ht hta g'
    have he : t ≠ t0 := by
      rintro rfl
      exact hheadnot ht
    rw [upd_other _ _ he] at hta
    exact h.awaitNoReading t g (hrestsub _ ht) hta g'
  · intro t ht g
    exact h.grantNoReading t (hrestsub _ ht) g

/-- Step case: the critical transaction's read completes and it loops
into another read, staying in the critical section. -/
theorem inv_txnCritCont {s : Sys} (h : Inv s) (t0 : Nat) (rest : List Cb)
    (hq : s.queue = Cb.txnResume t0 :: rest)
    (_ht0 : s.txn t0 = .tCritReading) :
    Inv { s with queue := rest } := by
  have hnd := h.nodupQueue
  rw [hq] at hnd
  obtain ⟨hheadnot, hndrest⟩ := List.nodup_cons.mp hnd
  have hrestsub : ∀ x, x ∈ rest → x ∈ s.queue := by
    intro x hx; rw [hq]; simp [hx]
  refine
    { nodupQueue := hndrest
      loopStartMem := ?_
      loopRunMem := ?_
      txnStartMem := ?_
      awaitState := ?_
      resumeMem := ?_
      grantMem := ?_
      waitersMem := h.waitersMem
      nodupWaiters := h.nodupWaiters
      awaitersTxn := h.awaitersTxn
      freshGen := h.freshGen
      curGenLt := h.curGenLt
      freshTxn := h.freshTxn
      deadAwaiters := h.deadAwaiters
      nodupAwaiters := h.nodupAwaiters
      awaitersCancel := h.awaitersCancel
      awaitGenLt := h.awaitGenLt
      lockedIffCrit := h.lockedIffCrit
      critUnique := h.critUnique
      waitersGrant := ?_
      lockedNoReading := h.lockedNoReading
      staleDead := h.staleDead
      noStartBeforeGrant := noBefore_tail (hq ▸ h.noStartBeforeGrant)
      noCritBeforeStart := noBefore_tail (hq ▸ h.noCritBeforeStart)
      noStartBeforeAwait := noBefore_tail (hq ▸ h.noStartBeforeAwait)
      awaitNoReading := ?_
      grantNoReading := ?_ }
  all_goals dsimp only
  · intro g
    constructor
    · intro hgm
      exact (h.loopStartMem g).mp (hrestsub _ hgm)
    · intro hgm
      have := (h.loopStartMem g).mpr hgm
      rw [hq] at this
      rcases List.mem_cons.mp this with hc' | hc'
      · exact absurd hc' (by simp)
      · exact hc'
  · intro g hgm
    exact h.loopRunMem g (hrestsub _ hgm)
  · intro t
    constructor
    · intro hc
      exact (h.txnStartMem t).mp (hrestsub _ hc)
    · intro hc
      have := (h.txnStartMem t).mpr hc
      rw [hq] at this
      rcases List.mem_cons.mp this with hc' | hc'
      · exact absurd hc' (by simp)
      · exact hc'
  · intro t g ht
    rcases h.awaitState t g ht with ⟨h1, h2, h3⟩ | ⟨h1, h2⟩
    · exact Or.inl ⟨h1, h2, fun hc => h3 (hrestsub _ hc)⟩
    · refine Or.inr ⟨h1, ?_⟩
      rw [hq] at h2
      rcases List.mem_cons.mp h2 with hc' | hc'
      · rw [Cb.txnResume.injEq] at hc'
        subst hc'
        rw [_ht0] at ht
        exact absurd ht (by simp)
      · exact hc'
  · intro t ht
    exact h.resumeMem t (hrestsub _ ht)
  · intro t ht
    exact h.grantMem t (hrestsub _ ht)
  · intro hl hw
    obtain ⟨t, ht⟩ := h.waitersGrant hl hw
    rw [hq] at ht
    rcases List.mem_cons.mp ht with hc' | hc'
    · exact absurd hc' (by simp)
    · exact ⟨t, hc'⟩
  · intro t g ht hta g'
    exact h.awaitNoReading t g (hrestsub _ ht) hta g'
  · intro t ht g
    exact h.grantNoReading t (hrestsub _ ht) g

end LoopLock

namespace LoopLock

/-- Auxiliary form of the release step: `GP` is the (possibly empty)
grant push produced by `Lock.release` waking the first waiter. -/
theorem inv_txnCritFinish_aux {s : Sys} (h : Inv s) (t0 : Nat)
    (rest GP : List Cb)
    (hq : s.queue = Cb.txnResume t0 :: rest)
    (ht0 : s.txn t0 = .tCritReading)
    (hGP : ∀ x ∈ GP, ∃ w, x = Cb.txnGrant w ∧ s.waiters.head? = some w)
    (hGPw : s.waiters ≠ [] → ∃ w, GP = [Cb.txnGrant w])
    (hGPnodup : GP.Nodup) :
    Inv { s with
      queue := rest ++ GP ++ [Cb.loopStart s.nextGen],
      locked := false,
      loopStat := upd s.loopStat s.nextGen .notStarted,
      curGen := s.nextGen,
      nextGen := s.nextGen + 1,
      txn := upd s.txn t0 .tDone } := by
  have hmem : Cb.txnResume t0 ∈ s.queue := by rw [hq]; simp
  have hlk : s.locked = true := h.lockedIffCrit.mpr ⟨t0, ht0⟩
  have hnoread := h.lockedNoReading hlk
  have hnogr := h.noGrant_of_locked hlk
  have hnd := h.nodupQueue
  rw [hq] at hnd
  obtain ⟨hheadnot, hndrest⟩ := List.nodup_cons.mp hnd
  have hrestsub : ∀ x, x ∈ rest → x ∈ s.queue := by
    intro x hx; rw [hq]; simp [hx]
  have hcb := h.noCritBeforeStart
  rw [hq] at hcb
  have hNSRx : ∀ x ∈ rest, ¬ isLoopStart x := hcb.1 ⟨t0, rfl, ht0⟩
  have hNSR : ∀ g', Cb.loopStart g' ∉ rest := by
    intro g' hg'
    exact hNSRx _ hg' ⟨g', rfl⟩
  obtain ⟨hGdead, hGcancel, hGawait⟩ := h.freshGen s.nextGen le_rfl
  have hOldCur : s.loopStat s.curGen = .dead := by
    cases hstat : s.loopStat s.curGen with
    | notStarted =>
      have := (h.loopStartMem s.curGen).mpr hstat
      rw [hq] at this
      rcases List.mem_cons.mp this with hc' | hc'
      · exact absurd hc' (by simp)
      · exact absurd hc' (hNSR s.curGen)
    | reading => exact absurd hstat (hnoread s.curGen)
    | dead => rfl
  have hall := h.allDead hOldCur
  have hnocrit' : ∀ u, u ≠ t0 → s.txn u ≠ .tCritReading := by
    intro u hu hc
    exact hu (h.critUnique u t0 hc ht0)
  have hGPshape : ∀ x ∈ GP, ∃ w, x = Cb.txnGrant w := by
    intro x hx
    obtain ⟨w, hw, _⟩ := hGP x hx
    exact ⟨w, hw⟩
  have hGnotall : ∀ g', s.loopStat g' ≠ .notStarted := by
    intro g' hc
    rw [hall g'] at hc
    exact absurd hc (by simp)
  have hmemQ : ∀ x, x ∈ rest ++ GP ++ [Cb.loopStart s.nextGen] ↔
      (x ∈ rest ∨ x ∈ GP) ∨ x = Cb.loopStart s.nextGen := by
    intro x
    simp [List.mem_append, or_assoc]
  refine
    { nodupQueue := ?_
      loopStartMem := ?_
      loopRunMem := ?_
      txnStartMem := ?_
      awaitState := ?_
      resumeMem := ?_
      grantMem := ?_
      waitersMem := ?_
      nodupWaiters := h.nodupWaiters
      awaitersTxn := ?_
      freshGen := ?_
      curGenLt := Nat.lt_succ_self _
      freshTxn := ?_
      deadAwaiters := ?_
      nodupAwaiters := h.nodupAwaiters
      awaitersCancel := h.awaitersCancel
      awaitGenLt := ?_
      lockedIffCrit := ?_
      critUnique := ?_
      waitersGrant := ?_
      lockedNoReading := ?_
      staleDead := ?_
      noStartBeforeGrant := ?_
      noCritBeforeStart := ?_
      noStartBeforeAwait := ?_
      awaitNoReading := ?_
      grantNoReading := ?_ }
  all_goals dsimp only
  · refine List.Nodup.append (List.Nodup.append hndrest hGPnodup ?_)
      (List.nodup_singleton _) ?_
    · intro x hx hx'
      obtain ⟨w, rfl⟩ := hGPshape x hx'
      exact hnogr w (hrestsub _ hx)
    · intro x hx hx'
      rw [List.mem_singleton] at hx'
      subst hx'
      rcases List.mem_append.mp hx with hx | hx
      · exact hNSR _ hx
      · obtain ⟨w, hw⟩ := hGPshape _ hx
        exact absurd hw (by simp)
  · intro g
    rw [hmemQ]
    constructor
    · rintro ((hg | hg) | hg)
      · exact absurd hg (hNSR g)
      · obtain ⟨w, hw⟩ := hGPshape _ hg
        exact absurd hw (by simp)
      · rw [Cb.loopStart.injEq] at hg
        rw [hg, upd_same]
    · intro hg
      by_cases he : g = s.nextGen
      · exact Or.inr (by rw [he])
      · rw [upd_other _ _ he] at hg
        exact absurd hg (hGnotall g)
  · intro g hg
    rw [hmemQ] at hg
    rcases hg with (hg | hg) | hg
    · have := h.loopRunMem g (hrestsub _ hg)
      rw [hall g] at this
      exact absurd this (by simp)
    · obtain ⟨w, hw⟩ := hGPshape _ hg
      exact absurd hw (by simp)
    · exact absurd hg (by simp)
  · intro t
    rw [hmemQ]
    constructor
    · rintro ((ht | ht) | ht)
      · have hold := (h.txnStartMem t).mp (hrestsub _ ht)
        have he : t ≠ t0 := by
          intro hrfl
          rw [hrfl, ht0] at hold
          exact absurd hold (by simp)
        rw [upd_other _ _ he]
        exact hold
      · obtain ⟨w, hw⟩ := hGPshape _ ht
        exact absurd hw (by simp)
      · exact absurd ht (by simp)
    · intro ht
      have he : t ≠ t0 := by
        intro hrfl
        rw [hrfl, upd_same] at ht
        exact absurd ht (by simp)
      rw [upd_other _ _ he] at ht
      have := (h.txnStartMem t).mpr ht
      rw [hq] at this
      rcases List.mem_cons.mp this with hc' | hc'
      · exact absurd hc' (by simp)
      · exact Or.inl (Or.inl hc')
  · intro t g ht
    have he : t ≠ t0 := by
      intro hrfl
      rw [hrfl, upd_same] at ht
      exact absurd ht (by simp)
    rw [upd_other _ _ he] at ht
    have hglt : g < s.nextGen := h.awaitGenLt t g ht
    have hgne : g ≠ s.nextGen := by omega
    rcases h.awaitState t g ht with ⟨h1, h2, h3⟩ | ⟨h1, h2⟩
    · refine Or.inl ⟨by rw [upd_other _ _ hgne]; exact h1, h2, ?_⟩
      rw [hmemQ]
      rintro ((hc | hc) | hc)
      · exact h3 (hrestsub _ hc)
      · obtain ⟨w, hw⟩ := hGPshape _ hc
        exact absurd hw (by simp)
      · exact absurd hc (by simp)
    · refine Or.inr ⟨by rw [upd_other _ _ hgne]; exact h1, ?_⟩
      rw [hq] at h2
      rcases List.mem_cons.mp h2 with hc' | hc'
      · rw [Cb.txnResume.injEq] at hc'
        exact absurd hc' he
      · rw [hmemQ]
        exact Or.inl (Or.inl hc')
  · intro t ht
    rw [hmemQ] at ht
    rcases ht with (ht | ht) | ht
    · have he : t ≠ t0 := by
        intro hrfl
        rw [hrfl] at ht
        exact hheadnot ht
      rw [upd_other _ _ he]
      exact h.resumeMem t (hrestsub _ ht)
    · obtain ⟨w, hw⟩ := hGPshape _ ht
      exact absurd hw (by simp)
    · exact absurd ht (by simp)
  · intro t ht
    rw [hmemQ] at ht
    rcases ht with (ht | ht) | ht
    · exact absurd (hrestsub _ ht) (hnogr t)
    · obtain ⟨w, hw, hhead⟩ := hGP _ ht
      rw [Cb.txnGrant.injEq] at hw
      subst hw
      have hwmem : t ∈ s.waiters := by
        cases hws : s.waiters with
        | nil =>
          rw [hws] at hhead
          exact absurd hhead (by simp)
        | cons a l =>
          rw [hws] at hhead
          simp only [List.head?_cons, Option.some.injEq] at hhead
          rw [← hhead]
          simp
      have hwl := (h.waitersMem t).mp hwmem
      have he : t ≠ t0 := by
        intro hrfl
        rw [hrfl, ht0] at hwl
        exact absurd hwl (by simp)
      exact ⟨by rw [upd_other _ _ he]; exact hwl, hhead, rfl⟩
    · exact absurd ht (by simp)
  · intro t
    by_cases he : t = t0
    · rw [he, upd_same]
      constructor
      · intro hc
        have := (h.waitersMem t0).mp hc
        rw [ht0] at this
        exact absurd this (by simp)
      · intro hc
        exact absurd hc (by simp)
    · rw [upd_other _ _ he]
      exact h.waitersMem t
  · intro g t ht
    have hold := h.awaitersTxn g t ht
    have he : t ≠ t0 := by
      intro hrfl
      rw [hrfl, ht0] at hold
      exact absurd hold (by simp)
    rw [upd_other _ _ he]
    exact hold
  · intro g hg
    have he : g ≠ s.nextGen := by omega
    rw [upd_other _ _ he]
    exact h.freshGen g (by omega)
  · intro t ht
    by_cases he : t = t0
    · rw [he, upd_same]
    · rw [upd_other _ _ he]
      exact h.freshTxn t ht
  · intro g hg
    by_cases he : g = s.nextGen
    · rw [he, upd_same] at hg
      exact absurd hg (by simp)
    · rw [upd_other _ _ he] at hg
      exact h.deadAwaiters g hg
  · intro t g ht
    have he : t ≠ t0 := by
      intro hrfl
      rw [hrfl, upd_same] at ht
      exact absurd ht (by simp)
    rw [upd_other _ _ he] at ht
    have := h.awaitGenLt t g ht
    omega
  · constructor
    · intro hc
      exact absurd hc (by simp)
    · rintro ⟨u, hu⟩
      exfalso
      by_cases he : u = t0
      · rw [he, upd_same] at hu
        exact absurd hu (by simp)
      · rw [upd_other _ _ he] at hu
        exact hnocrit' u he hu
  · intro t u ht hu
    exfalso
    by_cases he : t = t0
    · rw [he, upd_same] at ht
      exact absurd ht (by simp)
    · rw [upd_other _ _ he] at ht
      exact hnocrit' t he ht
  · intro _ hw
    obtain ⟨w, hGPeq⟩ := hGPw hw
    refine ⟨w, ?_⟩
    rw [hmemQ]
    rw [hGPeq]
    simp
  · intro hc
    exact absurd hc (by simp)
  · intro g hg
    by_cases he : g = s.nextGen
    · exact absurd he hg
    · rw [upd_other _ _ he]
      exact hall g
  · rw [noBefore_append]
    refine ⟨?_, ?_, ?_⟩
    · rw [noBefore_append]
      refine ⟨noBefore_of_notP hNSRx, ?_, ?_⟩
      · refine noBefore_of_notP ?_
        intro c hc
        obtain ⟨w, rfl⟩ := hGPshape _ hc
        simp [isLoopStart]
      · intro c hc hpc
        exact absurd hpc (hNSRx _ hc)
    · exact ⟨fun _ => by simp, trivial⟩
    · intro c hc hpc x hx
      rw [List.mem_singleton] at hx
      subst hx
      simp [isGrant]
  · refine noBefore_of_notP ?_
    rintro c hc ⟨u, rfl, hu⟩
    by_cases he : u = t0
    · rw [he, upd_same] at hu
      exact absurd hu (by simp)
    · rw [upd_other _ _ he] at hu
      exact hnocrit' u he hu
  · rw [noBefore_append]
    refine ⟨?_, ?_, ?_⟩
    · refine noBefore_of_notP ?_
      intro c hc
      rcases List.mem_append.mp hc with hc | hc
      · exact hNSRx _ hc
      · obtain ⟨w, rfl⟩ := hGPshape _ hc
        simp [isLoopStart]
    · exact ⟨fun _ x hx => by simp at hx, trivial⟩
    · intro c hc hpc
      rcases List.mem_append.mp hc with hc | hc
      · exact absurd hpc (hNSRx _ hc)
      · obtain ⟨w, rfl⟩ := hGPshape _ hc
        exact absurd hpc (by simp [isLoopStart])
  · intro t g _ _ g'
    by_cases he : g' = s.nextGen
    · rw [he, upd_same]
      simp
    · rw [upd_other _ _ he]
      rw [hall g']
      simp
  · intro t _ g'
    by_cases he : g' = s.nextGen
    · rw [he, upd_same]
      simp
    · rw [upd_other _ _ he]
      rw [hall g']
      simp

/-- Step case: the critical transaction finishes, releases the lock
(waking the first waiter, if any) and restarts the background loop. -/
theorem inv_txnCritFinish {s : Sys} (h : Inv s) (t0 : Nat) (rest : List Cb)
    (hq : s.queue = Cb.txnResume t0 :: rest)
    (ht0 : s.txn t0 = .tCritReading) :
    Inv { s with
      queue := rest ++
        (match s.waiters with | [] => [] | w :: _ => [Cb.txnGrant w]) ++
        [Cb.loopStart s.nextGen],
      locked := false,
      loopStat := upd s.loopStat s.nextGen .notStarted,
      curGen := s.nextGen,
      nextGen := s.nextGen + 1,
      txn := upd s.txn t0 .tDone } := by
  cases hws : s.waiters with
  | nil =>
    have := inv_txnCritFinish_aux h t0 rest [] hq ht0
      (by simp) (by intro hc; exact absurd hws hc) List.nodup_nil
    simpa [hws] using this
  | cons w ws =>
    have := inv_txnCritFinish_aux h t0 rest [Cb.txnGrant w] hq ht0
      (by
        intro x hx
        rw [List.mem_singleton] at hx
        subst hx
        exact ⟨w, rfl, by rw [hws]; simp⟩)
      (fun _ => ⟨w, rfl⟩) (List.nodup_singleton _)
    simpa [hws] using this

end LoopLock

namespace LoopLock

/-- Step case: a woken lock waiter resumes, takes the lock and enters
its critical section. -/
theorem inv_txnGrantRun {s : Sys} (h : Inv s) (t0 : Nat) (rest : List Cb)
    (hq : s.queue = Cb.txnGrant t0 :: rest) :
    Inv { s with queue := rest, locked := true,
                 waiters := s.waiters.tail,
                 txn := upd s.txn t0 .tCritReading } := by
  have hmem : Cb.txnGrant t0 ∈ s.queue := by rw [hq]; simp
  obtain ⟨hWL, hH, hL⟩ := h.grantMem t0 hmem
  have hNoRead := h.grantNoReading t0 hmem
  have hnocrit := h.noCrit_of_unlocked hL
  have hnd := h.nodupQueue
  rw [hq] at hnd
  obtain ⟨hheadnot, hndrest⟩ := List.nodup_cons.mp hnd
  have hrestsub : ∀ x, x ∈ rest → x ∈ s.queue := by
    intro x hx; rw [hq]; simp [hx]
  have hNoGrantRest : ∀ u, Cb.txnGrant u ∉ rest := by
    intro u hu
    have := (h.grantMem u (hrestsub _ hu)).2.1
    rw [hH] at this
    rw [Option.some.injEq] at this
    rw [← this] at hu
    exact hheadnot hu
  obtain ⟨ws, hws⟩ : ∃ ws, s.waiters = t0 :: ws := by
    cases hws : s.waiters with
    | nil =>
      rw [hws] at hH
      exact absurd hH (by simp)
    | cons a l =>
      rw [hws] at hH
      simp only [List.head?_cons, Option.some.injEq] at hH
      exact ⟨l, by rw [hH]⟩
  have ht0nw : t0 ∉ ws := by
    have := h.nodupWaiters
    rw [hws] at this
    exact (List.nodup_cons.mp this).1
  have ht0res : Cb.txnResume t0 ∉ s.queue := by
    intro hc
    have := h.resumeMem t0 hc
    rw [hWL] at this
    rcases this with ⟨g, hg'⟩ | hg' <;> simp at hg'
  have ht0lt : t0 < s.nextTxn := by
    by_contra hc
    have := h.freshTxn t0 (by omega)
    rw [hWL] at this
    exact absurd this (by simp)
  refine
    { nodupQueue := hndrest
      loopStartMem := ?_
      loopRunMem := ?_
      txnStartMem := ?_
      awaitState := ?_
      resumeMem := ?_
      grantMem := ?_
      waitersMem := ?_
      nodupWaiters := ?_
      awaitersTxn := ?_
      freshGen := h.freshGen
      curGenLt := h.curGenLt
      freshTxn := ?_
      deadAwaiters := h.deadAwaiters
      nodupAwaiters := h.nodupAwaiters
      awaitersCancel := h.awaitersCancel
      awaitGenLt := ?_
      lockedIffCrit := ?_
      critUnique := ?_
      waitersGrant := ?_
      lockedNoReading := ?_
      staleDead := h.staleDead
      noStartBeforeGrant := noBefore_tail (hq ▸ h.noStartBeforeGrant)
      noCritBeforeStart := ?_
      noStartBeforeAwait := ?_
      awaitNoReading := ?_
      grantNoReading := ?_ }
  all_goals dsimp only
  · intro g
    constructor
    · intro hgm
      exact (h.loopStartMem g).mp (hrestsub _ hgm)
    · intro hgm
      have := (h.loopStartMem g).mpr hgm
      rw [hq] at this
      rcases List.mem_cons.mp this with hc' | hc'
      · exact absurd hc' (by simp)
      · exact hc'
  · intro g hgm
    have := h.loopRunMem g (hrestsub _ hgm)
    exact absurd this (hNoRead g)
  · intro t
    by_cases he : t = t0
    · rw [he, upd_same]
      constructor
      · intro hc
        have := (h.txnStartMem t0).mp (hrestsub _ hc)
        rw [hWL] at this
        exact absurd this (by simp)
      · intro hc
        exact absurd hc (by simp)
    · rw [upd_other _ _ he]
      constructor
      · intro hc
        exact (h.txnStartMem t).mp (hrestsub _ hc)
      · intro hc
        have := (h.txnStartMem t).mpr hc
        rw [hq] at this
        rcases List.mem_cons.mp this with hc' | hc'
        · exact absurd hc' (by simp)
        · exact hc'
  · intro t g ht
    by_cases he : t = t0
    · rw [he, upd_same] at ht
      exact absurd ht (by simp)
    · rw [upd_other _ _ he] at ht
      rcases h.awaitState t g ht with ⟨h1, h2, h3⟩ | ⟨h1, h2⟩
      · exact Or.inl ⟨h1, h2, fun hc => h3 (hrestsub _ hc)⟩
      · refine Or.inr ⟨h1, ?_⟩
        rw [hq] at h2
        rcases List.mem_cons.mp h2 with hc' | hc'
        · exact absurd hc' (by simp)
        · exact hc'
  · intro t ht
    have he : t ≠ t0 := by
      intro hrfl
      rw [hrfl] at ht
      exact ht0res (hrestsub _ ht)
    rw [upd_other _ _ he]
    exact h.resumeMem t (hrestsub _ ht)
  · intro t ht
    exact absurd ht (hNoGrantRest t)
  · intro t
    rw [hws]
    by_cases he : t = t0
    · rw [he, upd_same]
      constructor
      · intro hc
        exact absurd (by simpa using hc) ht0nw
      · intro hc
        exact absurd hc (by simp)
    · rw [upd_other _ _ he]
      constructor
      · intro hc
        refine (h.waitersMem t).mp ?_
        rw [hws]
        simp only [List.tail_cons] at hc
        simp [hc]
      · intro hc
        have := (h.waitersMem t).mpr hc
        rw [hws] at this
        rcases List.mem_cons.mp this with hc' | hc'
        · exact absurd hc' he
        · simpa using hc'
  · have := h.nodupWaiters
    rw [hws] at this
    rw [hws]
    simpa using (List.nodup_cons.mp this).2
  · intro g t ht
    have hold := h.awaitersTxn g t ht
    have he : t ≠ t0 := by
      intro hrfl
      rw [hrfl, hWL] at hold
      exact absurd hold (by simp)
    rw [upd_other _ _ he]
    exact hold
  · intro t ht
    have he : t ≠ t0 := by omega
    rw [upd_other _ _ he]
    exact h.freshTxn t ht
  · intro t g ht
    by_cases he : t = t0
    · rw [he, upd_same] at ht
      exact absurd ht (by simp)
    · rw [upd_other _ _ he] at ht
      exact h.awaitGenLt t g ht
  · constructor
    · intro _
      exact ⟨t0, by rw [upd_same]⟩
    · intro _
      rfl
  · intro t u ht hu
    have he : t = t0 := by
      by_contra hc
      rw [upd_other _ _ hc] at ht
      exact absurd ht (hnocrit t)
    have he' : u = t0 := by
      by_contra hc
      rw [upd_other _ _ hc] at hu
      exact absurd hu (hnocrit u)
    rw [he, he']
  · intro hc
    exact absurd hc (by simp)
  · intro _ g
    exact hNoRead g
  · refine noBefore_of_notP ?_
    rintro c hc ⟨t, rfl, ht⟩
    by_cases he : t = t0
    · rw [he] at hc
      exact ht0res (hrestsub _ hc)
    · rw [upd_other _ _ he] at ht
      exact hnocrit t ht
  · refine noBefore_mono (noBefore_tail (hq ▸ h.noStartBeforeAwait))
      (fun c _ => id) ?_
    rintro c hc ⟨t, g, rfl, ht⟩
    by_cases he : t = t0
    · rw [he, upd_same] at ht
      exact absurd ht (by simp)
    · rw [upd_other _ _ he] at ht
      exact ⟨t, g, rfl, ht⟩
  · intro t g ht hta g'
    have he : t ≠ t0 := by
      intro hrfl
      rw [hrfl] at ht
      exact ht0res (hrestsub _ ht)
    rw [upd_other _ _ he] at hta
    exact h.awaitNoReading t g (hrestsub _ ht) hta g'
  · intro t ht
    exact absurd ht (hNoGrantRest t)

end LoopLock

namespace LoopLock

/-- The invariant is preserved by every step. -/
theorem inv_step {s s' : Sys} (h : Inv s) (hs : Step s s') : Inv s' := by
  cases hs with
  | spawn => exact inv_spawn h
  | loopData g hg hq => exact inv_loopData h g hg hq
  | txnData t ht hq => exact inv_txnData h t ht hq
  | loopStartDead g rest hq hd => exact inv_loopStartDead h g rest hq hd
  | loopStartRead g rest hq hc hl => exact inv_loopStartRead h g rest hq hc hl
  | loopRunDead g rest hq hc => exact inv_loopRunDead h g rest hq hc
  | loopRunCont g rest hq hc => exact inv_loopRunCont h g rest hq hc
  | txnStartAcquire t rest hq hg hl hw => exact inv_txnStartAcquire h t rest hq hg hl hw
  | txnStartWait t rest hq hg hlw => exact inv_txnStartWait h t rest hq hg hlw
  | txnStartCancel t rest hq hg => exact inv_txnStartCancel h t rest hq hg
  | txnResumeAcquire t g rest hq ht hl hw => exact inv_txnResumeAcquire h t g rest hq ht hl hw
  | txnResumeWait t g rest hq ht hlw => exact inv_txnResumeWait h t g rest hq ht hlw
  | txnCritCont t rest hq ht => exact inv_txnCritCont h t rest hq ht
  | txnCritFinish t rest hq ht => exact inv_txnCritFinish h t rest hq ht
  | txnGrantRun t rest hq => exact inv_txnGrantRun h t rest hq

/-- Every reachable state satisfies the invariant. -/
theorem reachable_inv {s : Sys} (h : Reachable s) : Inv s := by
  induction h with
  | init => exact inv_init
  | step _ hs ih => exact inv_step ih hs

/-- C1: in every reachable interleaving of the background reader loop
and command transactions, whenever the transaction lock is held no loop
task is engaged in a stream read, and from a state in which the lock is
held no step leaves a loop task reading — in particular a loop iteration
beginning while the lock is held dies at the defensive entry check
(lines 106-107) instead of starting a read. -/
theorem lock_excludes_read_loop (s : Sys) (hr : Reachable s) :
    (s.locked = true → ∀ g, s.loopStat g ≠ LStat.reading) ∧
    (∀ s', Step s s' → s.locked = true → ∀ g, s'.loopStat g ≠ LStat.reading) := by
  have hinv := reachable_inv hr
  refine ⟨hinv.lockedNoReading, ?_⟩
  intro s' hs hl g
  have hnr := hinv.lockedNoReading hl
  cases hs with
  | spawn => exact hnr g
  | loopData g0 hg hq => exact hnr g
  | txnData t ht hq => exact hnr g
  | loopStartDead g0 rest hq hd =>
    dsimp only
    by_cases he : g = g0
    · rw [he, upd_same]
      simp
    · rw [upd_other _ _ he]
      exact hnr g
  | loopStartRead g0 rest hq hc hl0 =>
    rw [hl0] at hl
    exact absurd hl (by simp)
  | loopRunDead g0 rest hq hc =>
    dsimp only
    by_cases he : g = g0
    · rw [he, upd_same]
      simp
    · rw [upd_other _ _ he]
      exact hnr g
  | loopRunCont g0 rest hq hc => exact hnr g
  | txnStartAcquire t rest hq hg hl0 hw => exact hnr g
  | txnStartWait t rest hq hg hlw => exact hnr g
  | txnStartCancel t rest hq hg => exact hnr g
  | txnResumeAcquire t g1 rest hq ht hl0 hw => exact hnr g
  | txnResumeWait t g1 rest hq ht hlw => exact hnr g
  | txnCritCont t rest hq ht => exact hnr g
  | txnCritFinish t rest hq ht =>
    dsimp only
    by_cases he : g = s.nextGen
    · rw [he, upd_same]
      simp
    · rw [upd_other _ _ he]
      exact hnr g
  | txnGrantRun t rest hq => exact hnr g

/-- Concrete run for the C1 witness, step 1: the initial loop task
passes its entry check and reads. -/
def wit1 : Sys := { init with queue := [], loopStat := upd init.loopStat 0 .reading }

/-- Step 2: a transaction is spawned. -/
def wit2 : Sys :=
  { wit1 with queue := wit1.queue ++ [Cb.txnStart wit1.nextTxn],
              txn := upd wit1.txn wit1.nextTxn .tStart,
              nextTxn := wit1.nextTxn + 1 }

/-- Step 3: the transaction cancels the reading loop task and awaits it. -/
def wit3 : Sys :=
  { wit2 with
    queue := [] ++
      (if wit2.loopStat wit2.curGen = .reading ∧ Cb.loopRun wit2.curGen ∉ ([] : List Cb)
       then [Cb.loopRun wit2.curGen] else []),
    cancelReq := upd wit2.cancelReq wit2.curGen true,
    loopAwaiters := upd wit2.loopAwaiters wit2.curGen
      (wit2.loopAwaiters wit2.curGen ++ [0]),
    txn := upd wit2.txn 0 (.tAwaitLoop wit2.curGen) }

/-- Step 4: the cancellation is delivered and the loop task dies. -/
def wit4 : Sys :=
  { wit3 with queue := [] ++ (wit3.loopAwaiters 0).map Cb.txnResume,
              loopStat := upd wit3.loopStat 0 .dead,
              loopAwaiters := upd wit3.loopAwaiters 0 [] }

/-- Step 5: the transaction resumes and takes the lock. -/
def wit5 : Sys :=
  { wit4 with queue := [], locked := true,
              txn := upd wit4.txn 0 .tCritReading }

/-- The concrete locked state is reachable. -/
theorem wit5_reachable : Reachable wit5 :=
  Reachable.step
    (Reachable.step
      (Reachable.step
        (Reachable.step
          (Reachable.step Reachable.init
            (Step.loopStartRead init 0 [] rfl rfl rfl))
          (Step.spawn wit1))
        (Step.txnStartCancel wit2 0 [] (by decide) (by decide)))
      (Step.loopRunDead wit3 0 [] (by decide) (by decide)))
    (Step.txnResumeAcquire wit4 0 0 [] (by decide) (by decide) (by decide) (by decide))

end LoopLock

namespace LoopLock

/-- Witness for C1: in the concrete reachable state `wit5` the lock is
held by a transaction and the loop generation is not reading. -/
theorem lock_excludes_read_loop_witness :
    wit5.locked = true ∧ wit5.loopStat 0 ≠ LStat.reading :=
  ⟨by decide, (lock_excludes_read_loop wit5 wit5_reachable).1 (by decide) 0⟩

end LoopLock
